import Mathlib

/-!
Verification development for the showbuff-mobile ETL backend
(`etl-backend/app`): title extraction (`importer/parsing.py`),
matching (`importer/search.py`), the import job runner
(`tasks/import_tasks.py`), the TMDB cache-aside client
(`tmdb_client.py`) and the confirmation endpoint
(`importer/routes.py`).

Strings are modelled as `List Char`; Python character classes
(`\s`, `\d`, `str.strip`) are modelled on their ASCII parts, which is
the fragment every property here exercises.  Fallible or effectful
code (database, network, notification channel) is modelled by explicit
state passing; the network and the notification channel are oracles
passed as parameters.
-/

namespace ShowBuff

/-- ASCII part of Python's whitespace class (`\s`, `str.strip`). -/
def isSpc (c : Char) : Bool :=
  c = ' ' || c = '\t' || c = '\n' || c = '\r' || c = Char.ofNat 11 || c = Char.ofNat 12

/-- Remove trailing whitespace (the right half of `str.strip`). -/
def dropTrail (s : List Char) : List Char :=
  ((s.reverse).dropWhile isSpc).reverse

/-- Python `str.strip()`. -/
def pyStrip (s : List Char) : List Char :=
  dropTrail (s.dropWhile isSpc)

/-- Replace every maximal whitespace run by a single space:
the effect of `re.sub(r"\s+", " ", text)`. -/
def collapseWs : List Char → List Char
  | [] => []
  | [c] => if isSpc c then [' '] else [c]
  | c :: d :: rest =>
    if isSpc c then
      if isSpc d then collapseWs (d :: rest)
      else ' ' :: collapseWs (d :: rest)
    else c :: collapseWs (d :: rest)

/-- `_normalize_title` from `importer/parsing.py`: `None` for falsy input,
else collapse internal whitespace, strip, and turn an empty result
into `None`. -/
def normalize_title (text : List Char) : Option (List Char) :=
  if text = [] then none
  else
    let cleaned := pyStrip (collapseWs text)
    if cleaned = [] then none else some cleaned

/-- The year alternative of `_TITLE_YEAR_RE`: a `(YYYY)` group where
`YYYY` matches `19\d{2}|20\d{2}`, i.e. 1900-2099.  `some y` exactly when
the six characters form such a group. -/
def validYearGroup : List Char → Option Int
  | [o, a, b, c, d, e] =>
    if o = '(' && e = ')' && ((a = '1' && b = '9') || (a = '2' && b = '0'))
        && c.isDigit && d.isDigit then
      some ((((a.toNat - 48) * 1000 + (b.toNat - 48) * 100
              + (c.toNat - 48) * 10 + (d.toNat - 48) : Nat) : Int))
    else none
  | _ => none

/-- Matching of the regex tail `\s*\((19\d{2}|20\d{2})\)$` against a whole
suffix: optional whitespace, then the parenthesised year, ending the line. -/
def yearSuffix (s : List Char) : Option Int :=
  validYearGroup (s.dropWhile isSpc)

/-- Backtracking loop of `_TITLE_YEAR_RE.match`: the lazy title group
`(?P<title>.+?)` grows one character at a time; at each size the optional
year group is tried against the rest of the line, and at end of input the
optional group is dropped. -/
def goTY : List Char → List Char → List Char × Option Int
  | t, [] => (t, none)
  | t, c :: rest =>
    match yearSuffix (c :: rest) with
    | some y => (t, some y)
    | none => goTY (t ++ [c]) rest

/-- `_TITLE_YEAR_RE.match(line)`: fails only on an empty line (the title
group needs at least one character); otherwise returns the title group and
the optional captured year. -/
def matchTitleYear : List Char → Option (List Char × Option Int)
  | [] => none
  | c :: rest => some (goTY [c] rest)

/-- One extraction record (`ExtractedTitleRecord` dataclass). -/
structure ExtractedTitleRecord where
  raw_text : List Char
  normalized_title : Option (List Char)
  year : Option Int
deriving DecidableEq

/-- Body of the per-line loop of `extract_titles_from_text`: strip the
line, skip it when empty, run the regex, normalize the title group, skip
when the normalized title is falsy. -/
def processLine (raw_line : List Char) : Option ExtractedTitleRecord :=
  let line := pyStrip raw_line
  if line = [] then none
  else
    match matchTitleYear line with
    | none => none
    | some (t, y) =>
      match normalize_title t with
      | none => none
      | some title => some ⟨line, some title, y⟩

/-- `extract_titles_from_text`, applied to the already split lines of the
input blob (`text.splitlines()` is the caller's concern). -/
def extract_titles_from_text (lines : List (List Char)) : List ExtractedTitleRecord :=
  lines.filterMap processLine

/-- Whether the (stripped) line ends in a 4-digit year 1900-2099 in
parentheses; on success, the part of the line before the suffix and the
year value. -/
def endsInYearSplit (s : List Char) : Option (List Char × Int) :=
  if 6 ≤ s.length then
    match validYearGroup (s.drop (s.length - 6)) with
    | some y => some (s.take (s.length - 6), y)
    | none => none
  else none

/-- Claim C1 as stated, as a per-line prediction: a line ending in a
parenthesised 1900-2099 year yields a record with that year and the
collapsed-and-trimmed remainder as title (no record when that title is
empty); any other line yields a record with null year and the whole
collapsed trimmed line as title (no record when that is empty). -/
def specLineC1 (raw_line : List Char) : Option ExtractedTitleRecord :=
  let s := pyStrip raw_line
  match endsInYearSplit s with
  | some (p, y) =>
    match normalize_title p with
    | none => none
    | some t => some ⟨s, some t, some y⟩
  | none =>
    match normalize_title s with
    | none => none
    | some t => some ⟨s, some t, none⟩

/-- Claim C1 as amended: the year-suffix case additionally requires a
non-empty remainder before the suffix; a line that consists of the
parenthesised year alone is handled like a line without a year suffix
(the whole line becomes the title and the year is null). -/
def specLineC1Amended (raw_line : List Char) : Option ExtractedTitleRecord :=
  let s := pyStrip raw_line
  match endsInYearSplit s with
  | some (p, y) =>
    if p = [] then
      match normalize_title s with
      | none => none
      | some t => some ⟨s, some t, none⟩
    else
      match normalize_title p with
      | none => none
      | some t => some ⟨s, some t, some y⟩
  | none =>
    match normalize_title s with
    | none => none
    | some t => some ⟨s, some t, none⟩

/-! Generic facts about `dropWhile`/`takeWhile` used to reason about
stripping and about the regex backtracking loop. -/

theorem dropWhile_eq_nil_of_all {α} {p : α → Bool} :
    ∀ {l : List α}, (∀ c ∈ l, p c = true) → l.dropWhile p = [] := by
  intro l h
  induction l with
  | nil => rfl
  | cons c t ih =>
    have hc : p c = true := h c (List.mem_cons_self c t)
    simp only [List.dropWhile_cons, hc, if_true]
    exact ih fun x hx => h x (List.mem_cons_of_mem c hx)

theorem all_of_dropWhile_eq_nil {α} {p : α → Bool} :
    ∀ {l : List α}, l.dropWhile p = [] → ∀ c ∈ l, p c = true := by
  intro l h
  induction l with
  | nil => intro c hc; simp at hc
  | cons c t ih =>
    by_cases hc : p c = true
    · simp only [List.dropWhile_cons, hc, if_true] at h
      intro x hx
      rcases List.mem_cons.mp hx with hx | hx
      · subst hx; exact hc
      · exact ih h x hx
    · rw [Bool.not_eq_true] at hc
      simp [List.dropWhile_cons, hc] at h

theorem dropWhile_append_all {α} {p : α → Bool} :
    ∀ {l₁ l₂ : List α}, (∀ c ∈ l₁, p c = true) →
      (l₁ ++ l₂).dropWhile p = l₂.dropWhile p := by
  intro l₁ l₂ h
  induction l₁ with
  | nil => rfl
  | cons c t ih =>
    have hc : p c = true := h c (List.mem_cons_self c t)
    simp only [List.cons_append, List.dropWhile_cons, hc, if_true]
    exact ih fun x hx => h x (List.mem_cons_of_mem c hx)

theorem dropWhile_append_ex {α} {p : α → Bool} :
    ∀ {l₁ : List α}, (∃ c ∈ l₁, p c = false) → ∀ (l₂ : List α),
      (l₁ ++ l₂).dropWhile p = l₁.dropWhile p ++ l₂ := by
  intro l₁ h
  induction l₁ with
  | nil => simp at h
  | cons c t ih =>
    intro l₂
    obtain ⟨e, he, hpe⟩ := h
    by_cases hc : p c = true
    · have he' : e ∈ t := by
        rcases List.mem_cons.mp he with h1 | h1
        · subst h1; rw [hc] at hpe; cases hpe
        · exact h1
      simp only [List.cons_append, List.dropWhile_cons, hc, if_true]
      exact ih ⟨e, he', hpe⟩ l₂
    · rw [Bool.not_eq_true] at hc
      simp [List.dropWhile_cons, hc]

theorem head_false_of_dropWhile {α} {p : α → Bool} :
    ∀ {l : List α} {a : α} {rest : List α}, l.dropWhile p = a :: rest → p a = false := by
  intro l
  induction l with
  | nil => intro a rest h; simp at h
  | cons c t ih =>
    intro a rest h
    by_cases hc : p c = true
    · simp only [List.dropWhile_cons, hc, if_true] at h
      exact ih h
    · simp only [List.dropWhile_cons, hc, if_false] at h
      cases h
      simpa using hc

theorem all_of_takeWhile {α} {p : α → Bool} :
    ∀ {l : List α}, ∀ c ∈ l.takeWhile p, p c = true := by
  intro l
  induction l with
  | nil => intro c hc; simp at hc
  | cons a t ih =>
    intro c hc
    by_cases ha : p a = true
    · simp only [List.takeWhile_cons, ha, if_true] at hc
      rcases List.mem_cons.mp hc with h1 | h1
      · subst h1; exact ha
      · exact ih c h1
    · rw [Bool.not_eq_true] at ha
      simp [List.takeWhile_cons, ha] at hc

theorem length_dropWhile_append_lt {t₀ x : List Char} (h : ∃ c ∈ t₀, isSpc c = false) :
    x.length < ((t₀ ++ x).dropWhile isSpc).length := by
  induction t₀ with
  | nil => simp at h
  | cons c t' ih =>
    obtain ⟨e, he, hne⟩ := h
    by_cases hc : isSpc c = true
    · have he' : e ∈ t' := by
        rcases List.mem_cons.mp he with h1 | h1
        · subst h1; rw [hc] at hne; cases hne
        · exact h1
      simpa only [List.cons_append, List.dropWhile_cons, hc, if_true] using ih ⟨e, he', hne⟩
    · rw [Bool.not_eq_true] at hc
      simp only [List.cons_append, List.dropWhile_cons, hc, Bool.false_eq_true, if_false,
        List.length_cons, List.length_append]
      omega

/-! Facts about `dropTrail`, `pyStrip`, `collapseWs` and `normalize_title`. -/

theorem dropTrail_nil : dropTrail ([] : List Char) = [] := rfl

theorem dropTrail_cons {c : Char} (z : List Char) (hc : isSpc c = false) :
    dropTrail (c :: z) = c :: dropTrail z := by
  unfold dropTrail
  rw [List.reverse_cons]
  by_cases hall : ∀ x ∈ z.reverse, isSpc x = true
  · rw [dropWhile_append_all hall, dropWhile_eq_nil_of_all hall]
    simp [List.dropWhile_cons, hc]
  · push_neg at hall
    obtain ⟨e, he, hne⟩ := hall
    rw [dropWhile_append_ex ⟨e, he, Bool.eq_false_iff.mpr hne⟩]
    simp

theorem pyStrip_cons {c : Char} (z : List Char) (hc : isSpc c = false) :
    pyStrip (c :: z) = c :: dropTrail z := by
  unfold pyStrip
  simp only [List.dropWhile_cons, hc, if_false]
  exact dropTrail_cons z hc

theorem dropTrail_all_of_eq_nil {p : List Char} (h : dropTrail p = []) :
    ∀ c ∈ p, isSpc c = true := by
  unfold dropTrail at h
  have h2 : p.reverse.dropWhile isSpc = [] := by
    have := congrArg List.reverse h
    simpa using this
  intro c hc
  exact all_of_dropWhile_eq_nil h2 c (List.mem_reverse.mpr hc)

theorem dropTrail_decomp (p : List Char) :
    ∃ sp, p = dropTrail p ++ sp ∧ ∀ c ∈ sp, isSpc c = true := by
  refine ⟨(p.reverse.takeWhile isSpc).reverse, ?_, ?_⟩
  · conv_lhs => rw [← List.reverse_reverse p, ← List.takeWhile_append_dropWhile (p := isSpc) (l := p.reverse)]
    rw [List.reverse_append]
    rfl
  · intro c hc
    exact all_of_takeWhile c (List.mem_reverse.mp hc)

theorem dropTrail_ends (p : List Char) :
    dropTrail p = [] ∨ ∃ q d, dropTrail p = q ++ [d] ∧ isSpc d = false := by
  rcases hE : p.reverse.dropWhile isSpc with _ | ⟨d, rest⟩
  · left; unfold dropTrail; rw [hE]; rfl
  · right
    refine ⟨rest.reverse, d, ?_, head_false_of_dropWhile hE⟩
    unfold dropTrail
    rw [hE, List.reverse_cons]

theorem pyStrip_shape (l : List Char) :
    pyStrip l = [] ∨ ∃ c z, pyStrip l = c :: z ∧ isSpc c = false := by
  rcases hE : l.dropWhile isSpc with _ | ⟨c, z⟩
  · left; unfold pyStrip; rw [hE]; rfl
  · right
    have hc : isSpc c = false := head_false_of_dropWhile hE
    refine ⟨c, dropTrail z, ?_, hc⟩
    unfold pyStrip
    rw [hE]
    exact dropTrail_cons z hc

theorem collapseWs_all_spc {sp : List Char} (hne : sp ≠ []) (h : ∀ c ∈ sp, isSpc c = true) :
    collapseWs sp = [' '] := by
  induction sp with
  | nil => cases hne rfl
  | cons c t ih =>
    have hc : isSpc c = true := h c (List.mem_cons_self c t)
    cases t with
    | nil => simp [collapseWs, hc]
    | cons d t' =>
      have hd : isSpc d = true := h d (List.mem_cons_of_mem c (List.mem_cons_self d t'))
      rw [show collapseWs (c :: d :: t') = collapseWs (d :: t') by simp [collapseWs, hc, hd]]
      exact ih (by simp) fun x hx => h x (List.mem_cons_of_mem c hx)

theorem collapseWs_nonspc_append {d : Char} {sp : List Char} (hd : isSpc d = false)
    (hsp : ∀ c ∈ sp, isSpc c = true) :
    collapseWs (d :: sp) = d :: (if sp = [] then [] else [' ']) := by
  cases sp with
  | nil => simp [collapseWs, hd]
  | cons e sp' =>
    have : collapseWs (d :: e :: sp') = d :: collapseWs (e :: sp') := by
      simp [collapseWs, hd]
    rw [this, collapseWs_all_spc (by simp) hsp]
    simp

theorem collapseWs_ends_append {q : List Char} {d : Char} {sp : List Char}
    (hd : isSpc d = false) (hsp : ∀ c ∈ sp, isSpc c = true) :
    collapseWs ((q ++ [d]) ++ sp) = collapseWs (q ++ [d]) ++ (if sp = [] then [] else [' ']) := by
  induction q with
  | nil =>
    simp only [List.nil_append]
    rw [show ([d] ++ sp : List Char) = d :: sp from rfl, collapseWs_nonspc_append hd hsp]
    simp [collapseWs, hd]
  | cons c q' ih =>
    rcases q' with _ | ⟨e, z⟩
    · -- q = [c]: list is c :: d :: sp on the left, c :: [d] on the right
      by_cases hc : isSpc c = true
      · rw [show (([c] ++ [d]) ++ sp : List Char) = c :: d :: sp by simp,
          show collapseWs (c :: d :: sp) = ' ' :: collapseWs (d :: sp) by simp [collapseWs, hc, hd],
          collapseWs_nonspc_append hd hsp,
          show ([c] ++ [d] : List Char) = c :: [d] by simp,
          show collapseWs (c :: [d]) = ' ' :: collapseWs [d] by simp [collapseWs, hc, hd]]
        simp [collapseWs, hd]
      · rw [Bool.not_eq_true] at hc
        rw [show (([c] ++ [d]) ++ sp : List Char) = c :: d :: sp by simp,
          show collapseWs (c :: d :: sp) = c :: collapseWs (d :: sp) by simp [collapseWs, hc],
          collapseWs_nonspc_append hd hsp,
          show ([c] ++ [d] : List Char) = c :: [d] by simp,
          show collapseWs (c :: [d]) = c :: collapseWs [d] by simp [collapseWs, hc]]
        simp [collapseWs, hd]
    · -- q = c :: e :: z
      have hstep : ∀ (w : List Char), collapseWs (c :: e :: w) =
          (if isSpc c = true then (if isSpc e = true then collapseWs (e :: w)
            else ' ' :: collapseWs (e :: w)) else c :: collapseWs (e :: w)) := by
        intro w; simp [collapseWs]
      have hL : ((c :: e :: z ++ [d]) ++ sp : List Char) = c :: e :: (z ++ [d] ++ sp) := by simp
      have hR : ((c :: e :: z ++ [d]) : List Char) = c :: e :: (z ++ [d]) := by simp
      have ihe : collapseWs ((e :: z ++ [d]) ++ sp) =
          collapseWs (e :: z ++ [d]) ++ (if sp = [] then [] else [' ']) := ih
      by_cases hc : isSpc c = true
      · by_cases he : isSpc e = true
        · rw [hL, hstep, if_pos hc, if_pos he, hR, hstep, if_pos hc, if_pos he]
          rw [show (e :: (z ++ [d] ++ sp) : List Char) = (e :: z ++ [d]) ++ sp by simp]
          exact ihe
        · rw [hL, hstep, if_pos hc, if_neg he, hR, hstep, if_pos hc, if_neg he]
          rw [show (e :: (z ++ [d] ++ sp) : List Char) = (e :: z ++ [d]) ++ sp by simp, ihe]
          simp
      · rw [hL, hstep, if_neg hc, hR, hstep, if_neg hc]
        rw [show (e :: (z ++ [d] ++ sp) : List Char) = (e :: z ++ [d]) ++ sp by simp, ihe]
        simp

theorem pyStrip_append_space (y : List Char) : pyStrip (y ++ [' ']) = pyStrip y := by
  by_cases hall : ∀ x ∈ y, isSpc x = true
  · have h1 : (y ++ [' ']).dropWhile isSpc = [] := by
      apply dropWhile_eq_nil_of_all
      intro c hc
      rcases List.mem_append.mp hc with h | h
      · exact hall c h
      · simp at h; subst h; rfl
    have h2 : y.dropWhile isSpc = [] := dropWhile_eq_nil_of_all hall
    unfold pyStrip
    rw [h1, h2]
  · push_neg at hall
    obtain ⟨e, he, hne⟩ := hall
    have hex : ∃ c ∈ y, isSpc c = false := ⟨e, he, Bool.eq_false_iff.mpr hne⟩
    unfold pyStrip
    rw [dropWhile_append_ex hex]
    unfold dropTrail
    rw [List.reverse_append]
    simp only [List.reverse_cons, List.reverse_nil, List.nil_append, List.singleton_append]
    congr 1

theorem normalize_title_dropTrail (p : List Char) :
    normalize_title (dropTrail p) = normalize_title p := by
  obtain ⟨sp, hdecomp, hsp⟩ := dropTrail_decomp p
  rcases dropTrail_ends p with hnil | ⟨q, d, hqd, hd⟩
  · -- p is all whitespace (or empty)
    rw [hnil]
    rcases p with _ | ⟨c, z⟩
    · rfl
    · have hall : ∀ x ∈ c :: z, isSpc x = true := dropTrail_all_of_eq_nil hnil
      have hcol : collapseWs (c :: z) = [' '] := collapseWs_all_spc (by simp) hall
      have hstr : pyStrip [' '] = [] := by decide
      simp only [normalize_title, hcol, hstr]
      simp
  · -- dropTrail p ends in a non-space character d
    have hkey : pyStrip (collapseWs ((q ++ [d]) ++ sp)) = pyStrip (collapseWs (q ++ [d])) := by
      rw [collapseWs_ends_append hd hsp]
      rcases sp with _ | ⟨e, sp'⟩
      · simp
      · rw [if_neg (by simp), pyStrip_append_space]
    conv_rhs => rw [hdecomp, hqd]
    rw [hqd]
    simp only [normalize_title, hkey]
    simp

theorem normalize_title_cons_nonspc {c : Char} (z : List Char) (hc : isSpc c = false) :
    ∃ t, normalize_title (c :: z) = some (c :: t) := by
  have hcol : ∃ w, collapseWs (c :: z) = c :: w := by
    cases z with
    | nil => exact ⟨[], by simp [collapseWs, hc]⟩
    | cons d z' => exact ⟨collapseWs (d :: z'), by simp [collapseWs, hc]⟩
  obtain ⟨w, hw⟩ := hcol
  unfold normalize_title
  rw [if_neg (by simp), hw, pyStrip_cons w hc]
  rw [if_neg (by simp)]
  exact ⟨dropTrail w, rfl⟩

/-! Facts about the year group, `yearSuffix` and the backtracking loop. -/

theorem validYearGroup_none_of_length {g : List Char} (h : g.length ≠ 6) :
    validYearGroup g = none := by
  match g with
  | [] => rfl
  | [_] => rfl
  | [_, _] => rfl
  | [_, _, _] => rfl
  | [_, _, _, _] => rfl
  | [_, _, _, _, _] => rfl
  | [_, _, _, _, _, _] => exact absurd rfl h
  | _ :: _ :: _ :: _ :: _ :: _ :: _ :: _ => rfl

theorem validYearGroup_length {g : List Char} {y : Int} (h : validYearGroup g = some y) :
    g.length = 6 := by
  by_contra hne
  rw [validYearGroup_none_of_length hne] at h
  cases h

theorem validYearGroup_head {g : List Char} {y : Int} (h : validYearGroup g = some y) :
    ∃ t, g = '(' :: t := by
  match g, h with
  | [o, a, b, c, d, e], h =>
    refine ⟨[a, b, c, d, e], ?_⟩
    have h2 : (if (o = '(' && e = ')' && ((a = '1' && b = '9') || (a = '2' && b = '0'))
        && c.isDigit && d.isDigit) = true then
          some ((((a.toNat - 48) * 1000 + (b.toNat - 48) * 100
            + (c.toNat - 48) * 10 + (d.toNat - 48) : Nat) : Int))
        else none) = some y := h
    by_cases ho : (o = '(' && e = ')' && ((a = '1' && b = '9') || (a = '2' && b = '0'))
        && c.isDigit && d.isDigit) = true
    · have ho2 : o = '(' := by
        simp only [Bool.and_eq_true, decide_eq_true_eq] at ho
        exact ho.1.1.1.1
      rw [ho2]
    · rw [if_neg ho] at h2; cases h2

theorem yearSuffix_spc_append {sp g : List Char} {y : Int}
    (hsp : ∀ c ∈ sp, isSpc c = true) (hg : validYearGroup g = some y) :
    yearSuffix (sp ++ g) = some y := by
  obtain ⟨t, ht⟩ := validYearGroup_head hg
  unfold yearSuffix
  rw [dropWhile_append_all hsp, ht]
  have hpar : isSpc '(' = false := by decide
  rw [List.dropWhile_cons, hpar]
  simpa [← ht] using hg

theorem yearSuffix_none_of_short {t : List Char} (h : t.length < 6) : yearSuffix t = none := by
  unfold yearSuffix
  apply validYearGroup_none_of_length
  have hsuf : t.dropWhile isSpc <:+ t :=
    ⟨t.takeWhile isSpc, List.takeWhile_append_dropWhile isSpc t⟩
  have := hsuf.length_le
  omega

theorem suffix_append_split {α} {t u v : List α} (h : t <:+ u ++ v) :
    t <:+ v ∨ ∃ t₀, t₀ ≠ [] ∧ t₀ <:+ u ∧ t = t₀ ++ v := by
  induction u with
  | nil => left; simpa using h
  | cons c u' ih =>
    obtain ⟨w, hw⟩ := h
    cases w with
    | nil =>
      right
      refine ⟨c :: u', by simp, List.suffix_refl _, ?_⟩
      simpa using hw
    | cons d w' =>
      have hw' : w' ++ t = u' ++ v := by
        rw [List.cons_append, List.cons_append] at hw
        exact (List.cons.injEq _ _ _ _).mp hw |>.2
      rcases ih ⟨w', hw'⟩ with h1 | ⟨t₀, h1, h2, h3⟩
      · exact Or.inl h1
      · exact Or.inr ⟨t₀, h1, h2.trans (List.suffix_cons c u'), h3⟩

theorem suffix_ends {t₀ z q : List α} {d : α} (hs : t₀ <:+ z) (hne : t₀ ≠ [])
    (hz : z = q ++ [d]) : ∃ q', t₀ = q' ++ [d] := by
  obtain ⟨w, hw⟩ := hs
  refine ⟨t₀.dropLast, ?_⟩
  have hlast : t₀.getLast hne = d := by
    have h1 : (w ++ t₀).getLast? = some d := by
      rw [hw, hz]
      exact List.getLast?_concat q
    have h2 : (w ++ t₀).getLast? = t₀.getLast? := by
      cases t₀ with
      | nil => cases hne rfl
      | cons x xs => exact List.getLast?_append_cons w x xs
    rw [h2, List.getLast?_eq_getLast t₀ hne] at h1
    exact Option.some.inj h1
  rw [← hlast]
  exact (List.dropLast_append_getLast hne).symm

theorem goTY_no_year :
    ∀ (post pre : List Char), (∀ t, t <:+ post → yearSuffix t = none) →
      goTY pre post = (pre ++ post, none) := by
  intro post
  induction post with
  | nil => intro pre _; simp [goTY]
  | cons c rest ih =>
    intro pre h
    have h0 : yearSuffix (c :: rest) = none := h _ (List.suffix_refl _)
    rw [show goTY pre (c :: rest) = goTY (pre ++ [c]) rest by simp [goTY, h0]]
    rw [ih (pre ++ [c]) fun t ht => h t (ht.trans (List.suffix_cons c rest))]
    simp

theorem goTY_finds :
    ∀ (a b pre : List Char) (y : Int), yearSuffix b = some y →
      (∀ t, t <:+ a ++ b → b.length < t.length → yearSuffix t = none) →
      goTY pre (a ++ b) = (pre ++ a, some y) := by
  intro a
  induction a with
  | nil =>
    intro b pre y hb _
    cases b with
    | nil => cases hb
    | cons c rest => simp [goTY, hb]
  | cons c a' ih =>
    intro b pre y hb h
    have hl : yearSuffix (c :: (a' ++ b)) = none := by
      apply h
      · rw [← List.cons_append]
      · simp only [List.length_cons, List.length_append]
        omega
    rw [show ((c :: a') ++ b : List Char) = c :: (a' ++ b) from rfl]
    rw [show goTY pre (c :: (a' ++ b)) = goTY (pre ++ [c]) (a' ++ b) by simp [goTY, hl]]
    rw [ih b (pre ++ [c]) y hb fun t ht htl =>
      h t (ht.trans (by rw [List.cons_append]; exact List.suffix_cons c (a' ++ b))) htl]
    simp

theorem endsInYearSplit_some {s p : List Char} {y : Int}
    (h : endsInYearSplit s = some (p, y)) :
    6 ≤ s.length ∧ p = s.take (s.length - 6) ∧
      validYearGroup (s.drop (s.length - 6)) = some y := by
  unfold endsInYearSplit at h
  by_cases h6 : 6 ≤ s.length
  · rw [if_pos h6] at h
    cases hg : validYearGroup (s.drop (s.length - 6)) with
    | none => rw [hg] at h; cases h
    | some y' =>
      rw [hg] at h
      have h2 := Option.some.inj h
      have hpeq : p = s.take (s.length - 6) := (congrArg Prod.fst h2).symm
      have hyeq : y' = y := congrArg Prod.snd h2
      refine ⟨h6, hpeq, ?_⟩
      rw [← hyeq]
  · rw [if_neg h6] at h; cases h

theorem yearSuffix_none_of_no_split {s : List Char} (h : endsInYearSplit s = none) :
    ∀ t, t <:+ s → yearSuffix t = none := by
  intro t hts
  cases hy : yearSuffix t with
  | none => rfl
  | some y =>
    exfalso
    have hg : validYearGroup (t.dropWhile isSpc) = some y := hy
    have hlen : (t.dropWhile isSpc).length = 6 := validYearGroup_length hg
    have hsufg : t.dropWhile isSpc <:+ t :=
      ⟨t.takeWhile isSpc, List.takeWhile_append_dropWhile isSpc t⟩
    obtain ⟨w, hw⟩ := hsufg.trans hts
    have hslen : s.length = w.length + 6 := by
      rw [← hw]; simp [hlen]
    have hdrop : s.drop (s.length - 6) = t.dropWhile isSpc := by
      conv_lhs => rw [← hw]
      rw [show (w ++ t.dropWhile isSpc).length - 6 = w.length by
        simp [List.length_append, hlen]]
      exact List.drop_left w _
    unfold endsInYearSplit at h
    rw [if_pos (by omega), hdrop, hg] at h
    cases h

theorem matchTitleYear_no_split {s : List Char} (hne : s ≠ [])
    (h : endsInYearSplit s = none) : matchTitleYear s = some (s, none) := by
  cases s with
  | nil => cases hne rfl
  | cons c rest =>
    rw [show matchTitleYear (c :: rest) = some (goTY [c] rest) from rfl]
    rw [goTY_no_year rest [c] fun t ht =>
      yearSuffix_none_of_no_split h t (ht.trans (List.suffix_cons c rest))]
    rfl

theorem matchTitleYear_with_year {q : List Char} {d : Char} {sp g : List Char} {y : Int}
    (hd : isSpc d = false) (hsp : ∀ c ∈ sp, isSpc c = true)
    (hg : validYearGroup g = some y) :
    matchTitleYear ((q ++ [d]) ++ (sp ++ g)) = some (q ++ [d], some y) := by
  have hys : yearSuffix (sp ++ g) = some y := yearSuffix_spc_append hsp hg
  have hglen : g.length = 6 := validYearGroup_length hg
  cases q with
  | nil =>
    rw [show (([] ++ [d]) ++ (sp ++ g) : List Char) = d :: (sp ++ g) by simp]
    rw [show matchTitleYear (d :: (sp ++ g)) = some (goTY [d] (sp ++ g)) from rfl]
    rw [show (sp ++ g : List Char) = [] ++ (sp ++ g) from rfl]
    rw [goTY_finds [] (sp ++ g) [d] y hys
      (fun t ht htl => absurd ht.length_le (by simp at htl ⊢; omega))]
    simp
  | cons e q' =>
    rw [show ((e :: q' ++ [d]) ++ (sp ++ g) : List Char) = e :: ((q' ++ [d]) ++ (sp ++ g)) by simp]
    rw [show matchTitleYear (e :: ((q' ++ [d]) ++ (sp ++ g)))
        = some (goTY [e] ((q' ++ [d]) ++ (sp ++ g))) from rfl]
    rw [goTY_finds (q' ++ [d]) (sp ++ g) [e] y hys ?_]
    · simp
    · intro t ht htl
      rcases suffix_append_split ht with h1 | ⟨t₀, h1, h2, h3⟩
      · exact absurd h1.length_le (by omega)
      · obtain ⟨q'', hq''⟩ := suffix_ends h2 h1 rfl
        have hmem : ∃ x ∈ t₀, isSpc x = false := by
          refine ⟨d, ?_, hd⟩
          rw [hq'']
          exact List.mem_append.mpr (Or.inr (List.mem_singleton.mpr rfl))
        have hlong : (sp ++ g).length < ((t₀ ++ (sp ++ g)).dropWhile isSpc).length :=
          length_dropWhile_append_lt hmem
        unfold yearSuffix
        rw [h3]
        apply validYearGroup_none_of_length
        simp only [List.length_append] at hlong ⊢
        omega

/-- The per-line behaviour of the extractor agrees with the amended
prediction of claim C1. -/
theorem processLine_eq_spec (raw_line : List Char) :
    processLine raw_line = specLineC1Amended raw_line := by
  rcases pyStrip_shape raw_line with hnil | ⟨c, z, hcz, hc⟩
  · simp only [processLine, specLineC1Amended, hnil]
    simp [endsInYearSplit, normalize_title]
  · have hsne : pyStrip raw_line ≠ [] := by rw [hcz]; simp
    cases hE : endsInYearSplit (pyStrip raw_line) with
    | none =>
      have hmt : matchTitleYear (pyStrip raw_line) = some (pyStrip raw_line, none) :=
        matchTitleYear_no_split hsne hE
      simp only [processLine, specLineC1Amended, hE, hmt, if_neg hsne]
    | some py =>
      obtain ⟨p, y⟩ := py
      obtain ⟨h6, hptake, hg⟩ := endsInYearSplit_some hE
      have hsplit : pyStrip raw_line
          = p ++ (pyStrip raw_line).drop ((pyStrip raw_line).length - 6) := by
        conv_lhs => rw [← List.take_append_drop ((pyStrip raw_line).length - 6) (pyStrip raw_line)]
        rw [← hptake]
      by_cases hp : p = []
      · -- the whole stripped line is the year group
        have hslen : (pyStrip raw_line).length = 6 := by
          have := congrArg List.length hsplit
          simp only [List.length_append, hp, List.length_nil, List.length_drop] at this
          omega
        have hmt : matchTitleYear (pyStrip raw_line) = some (pyStrip raw_line, none) := by
          rw [hcz]
          rw [show matchTitleYear (c :: z) = some (goTY [c] z) from rfl]
          rw [goTY_no_year z [c] fun t ht => yearSuffix_none_of_short (by
            have h1 := ht.length_le
            have h2 : (c :: z).length = 6 := by rw [← hcz]; exact hslen
            simp at h2
            omega)]
          rfl
        simp only [processLine, specLineC1Amended, hE, hmt, if_neg hsne, if_pos hp]
      · rcases dropTrail_ends p with hPnil | ⟨q, d, hqd, hd⟩
        · exfalso
          have hall := dropTrail_all_of_eq_nil hPnil
          cases hpp : p with
          | nil => exact hp hpp
          | cons p0 pt =>
            have hp0 : p0 = c := by
              have h1 := hsplit
              rw [hcz, hpp] at h1
              simp only [List.cons_append] at h1
              exact ((List.cons.injEq _ _ _ _).mp h1).1.symm
            have := hall p0 (by rw [hpp]; exact List.mem_cons_self p0 pt)
            rw [hp0, hc] at this
            cases this
        · obtain ⟨sp, hdecomp, hsp⟩ := dropTrail_decomp p
          have hmt : matchTitleYear (pyStrip raw_line) = some (q ++ [d], some y) := by
            conv_lhs => rw [hsplit, hdecomp, hqd]
            rw [show ((q ++ [d]) ++ sp) ++ (pyStrip raw_line).drop ((pyStrip raw_line).length - 6)
                = (q ++ [d]) ++ (sp ++ (pyStrip raw_line).drop ((pyStrip raw_line).length - 6))
                by simp]
            exact matchTitleYear_with_year hd hsp hg
          have hnorm : normalize_title (q ++ [d]) = normalize_title p := by
            rw [← hqd]; exact normalize_title_dropTrail p
          simp only [processLine, specLineC1Amended, hE, hmt, if_neg hsne, if_neg hp, hnorm]

/-- Claim C1, corrected: the extractor realises the amended per-line
prediction `specLineC1Amended` on every input line. -/
theorem C1_extract_titles_amended (lines : List (List Char)) :
    extract_titles_from_text lines = lines.filterMap specLineC1Amended := by
  unfold extract_titles_from_text
  rw [funext processLine_eq_spec]

/-- Counterexample to claim C1 as stated: the line `(1999)` ends in a
parenthesised 1900-2099 year and the remainder before the suffix is empty,
so the claim predicts no record; the extractor instead emits a record with
the whole line as title and a null year. -/
theorem C1_counterexample :
    extract_titles_from_text [['(', '1', '9', '9', '9', ')']]
        = [⟨['(', '1', '9', '9', '9', ')'], some ['(', '1', '9', '9', '9', ')'], none⟩]
      ∧ List.filterMap specLineC1 [['(', '1', '9', '9', '9', ')']] = [] := by
  constructor
  · rfl
  · rfl

/-! Data model of `models.py` and the matcher of `importer/search.py`.
Python truthiness of the relevant value shapes is modelled explicitly:
`None`, `0`, `0.0` and `""` are falsy. -/

/-- Media kind stored in `TitleMatch.media_type` (`"movie" | "tv"`). -/
inductive MediaType where
  | movie
  | tv
deriving DecidableEq

/-- Match method stored in `TitleMatch.match_method`
(`"local_exact" | "tmdb_search"`). -/
inductive MatchMethod where
  | local_exact
  | tmdb_search
deriving DecidableEq

/-- A row of the `movies` table. -/
structure Movie where
  id : Nat
  tmdb_id : Nat
  title : List Char
  original_title : Option (List Char)
  year : Option Int
  popularity : Option ℚ
  adult : Bool
deriving DecidableEq

/-- A row of the `tv_shows` table. -/
structure TVShow where
  id : Nat
  tmdb_id : Nat
  name : List Char
  original_name : Option (List Char)
  first_air_year : Option Int
  popularity : Option ℚ
  adult : Bool
deriving DecidableEq

/-- The catalog store: the `movies` and `tv_shows` tables, plus the
primary-key counters that `db.session.flush()` realises. -/
structure Catalog where
  movies : List Movie
  shows : List TVShow
  nextMovieId : Nat
  nextShowId : Nat
deriving DecidableEq

/-- A row of the `extracted_titles` table (session ids are modelled as
naturals). -/
structure ExtractedTitle where
  id : Nat
  import_id : Nat
  raw_text : List Char
  normalized_title : Option (List Char)
  year : Option Int
deriving DecidableEq

/-- A row of the `title_matches` table, as built by the matcher (the
primary key is assigned later, at commit). -/
structure TitleMatch where
  extracted_title_id : Nat
  media_type : MediaType
  tmdb_id : Option Nat
  local_id : Option Nat
  confidence : ℚ
  match_method : Option MatchMethod
  is_ambiguous : Bool
deriving DecidableEq

/-- One raw TMDB search result record, with the fields the matcher reads
(`data.get(...)` on the provider's JSON). -/
structure RemoteResult where
  id : Option Nat
  title : Option (List Char)
  original_title : Option (List Char)
  name : Option (List Char)
  original_name : Option (List Char)
  release_date : Option (List Char)
  first_air_date : Option (List Char)
  popularity : Option ℚ
  adult : Bool
deriving DecidableEq

/-- Python truthiness of an optional string (`None` and `""` falsy). -/
def truthyS : Option (List Char) → Bool
  | none => false
  | some s => s ≠ []

/-- Python truthiness of an optional number (`None` and `0` falsy). -/
def truthyQ : Option ℚ → Bool
  | none => false
  | some q => q ≠ 0

/-- Python truthiness of an optional integer id. -/
def truthyN : Option Nat → Bool
  | none => false
  | some n => n ≠ 0

/-- Python truthiness of an optional `int` column value. -/
def truthyI : Option Int → Bool
  | none => false
  | some n => n ≠ 0

/-- Python `a or b` on optional strings. -/
def pyOrS (a b : Option (List Char)) : Option (List Char) :=
  if truthyS a then a else b

/-- Python `a or b` on optional numbers. -/
def pyOrQ (a b : Option ℚ) : Option ℚ :=
  if truthyQ a then a else b

/-- Digit run of Python `int()`: digits with single underscores allowed
between digits. -/
def digRun : Nat → List Char → Option Nat
  | acc, [] => some acc
  | acc, c :: rest =>
    if c.isDigit then digRun (acc * 10 + (c.toNat - 48)) rest
    else if c = '_' then
      match rest with
      | [] => none
      | d :: rest' =>
        if d.isDigit then digRun (acc * 10 + (d.toNat - 48)) rest' else none
    else none

/-- Unsigned core of Python `int()`: at least one digit, then `digRun`. -/
def pyIntCore : List Char → Option Nat
  | [] => none
  | c :: rest => if c.isDigit then digRun (c.toNat - 48) rest else none

/-- Python `int(s)` on an ASCII string: surrounding whitespace, optional
sign, digits with underscores; `none` models `ValueError`. -/
def pyInt (s : List Char) : Option Int :=
  match pyStrip s with
  | '+' :: rest => (pyIntCore rest).map fun n => (n : Int)
  | '-' :: rest => (pyIntCore rest).map fun n => -(n : Int)
  | rest => (pyIntCore rest).map fun n => (n : Int)

/-- Case-insensitive string equality (`func.lower(a) == func.lower(b)`). -/
def lowerEq (a b : List Char) : Bool :=
  a.map Char.toLower = b.map Char.toLower

/-- Optional exact-year filter: no constraint when the filter is absent. -/
def yearOk (yf : Option Int) (col : Option Int) : Bool :=
  match yf with
  | none => true
  | some y => col = some y

/-- Descending-popularity order with nulls last
(`popularity.desc().nullslast()` as a comes-before-or-ties test). -/
def popGe : Option ℚ → Option ℚ → Bool
  | some x, some y => x ≥ y
  | some _, none => true
  | none, some _ => false
  | none, none => true

/-- Insertion step of the popularity sort. -/
def insertPop {α} (key : α → Option ℚ) (x : α) : List α → List α
  | [] => [x]
  | y :: ys => if popGe (key x) (key y) then x :: y :: ys else y :: insertPop key x ys

/-- Sort by descending popularity, nulls last. -/
def sortPop {α} (key : α → Option ℚ) : List α → List α
  | [] => []
  | x :: xs => insertPop key x (sortPop key xs)

/-- The movie-side filter of the local query: case-insensitive title
equality plus the optional year filter. -/
def movieFilter (title : List Char) (yf : Option Int) (m : Movie) : Bool :=
  lowerEq m.title title && yearOk yf m.year

/-- The show-side filter of the local query. -/
def showFilter (title : List Char) (yf : Option Int) (s : TVShow) : Bool :=
  lowerEq s.name title && yearOk yf s.first_air_year

/-- `movie_query....limit(5).all()`: filter, order by popularity
descending nulls last, take 5. -/
def localMovies (cat : Catalog) (title : List Char) (yf : Option Int) : List Movie :=
  (sortPop Movie.popularity (cat.movies.filter (movieFilter title yf))).take 5

/-- `tv_query....limit(5).all()`. -/
def localShows (cat : Catalog) (title : List Char) (yf : Option Int) : List TVShow :=
  (sortPop TVShow.popularity (cat.shows.filter (showFilter title yf))).take 5

/-- Refresh of an existing or fresh `Movie` row from one TMDB result
(the field assignments of `_upsert_movie`). -/
def refreshMovie (m : Movie) (r : RemoteResult) : Movie :=
  { m with
    title := (pyOrS r.title (pyOrS r.original_title (pyOrS (some m.title) (some [])))).getD []
    original_title := pyOrS r.original_title m.original_title
    year :=
      (let rd := if truthyS r.release_date then r.release_date.getD [] else []
       if rd = [] then m.year
       else
         match pyInt (rd.take 4) with
         | some n => some n
         | none => m.year)
    popularity := pyOrQ r.popularity m.popularity
    adult := r.adult }

/-- Refresh of an existing or fresh `TVShow` row from one TMDB result
(the field assignments of `_upsert_tv`). -/
def refreshShow (s : TVShow) (r : RemoteResult) : TVShow :=
  { s with
    name := (pyOrS r.name (pyOrS r.original_name (pyOrS (some s.name) (some [])))).getD []
    original_name := pyOrS r.original_name s.original_name
    first_air_year :=
      (let rd := if truthyS r.first_air_date then r.first_air_date.getD [] else []
       if rd = [] then s.first_air_year
       else
         match pyInt (rd.take 4) with
         | some n => some n
         | none => s.first_air_year)
    popularity := pyOrQ r.popularity s.popularity
    adult := r.adult }

/-- Replace the first movie row carrying the given external id. -/
def updateMovieRow (tid : Nat) (m' : Movie) : List Movie → List Movie
  | [] => []
  | m :: rest => if m.tmdb_id = tid then m' :: rest else m :: updateMovieRow tid m' rest

/-- Replace the first show row carrying the given external id. -/
def updateShowRow (tid : Nat) (s' : TVShow) : List TVShow → List TVShow
  | [] => []
  | s :: rest => if s.tmdb_id = tid then s' :: rest else s :: updateShowRow tid s' rest

/-- `_upsert_movie`: `None` on a falsy external id; otherwise find the row
by external id or create a fresh one, refresh its fields, and return the
updated catalog together with the row. -/
def upsertMovie (cat : Catalog) (r : RemoteResult) : Option (Catalog × Movie) :=
  match r.id with
  | none => none
  | some tid =>
    if tid = 0 then none
    else
      match cat.movies.find? (fun m => m.tmdb_id = tid) with
      | some m =>
        let m' := refreshMovie m r
        some ({ cat with movies := updateMovieRow tid m' cat.movies }, m')
      | none =>
        let fresh : Movie := ⟨cat.nextMovieId, tid, [], none, none, none, false⟩
        let m' := refreshMovie fresh r
        some ({ cat with movies := cat.movies ++ [m'], nextMovieId := cat.nextMovieId + 1 }, m')

/-- `_upsert_tv`. -/
def upsertShow (cat : Catalog) (r : RemoteResult) : Option (Catalog × TVShow) :=
  match r.id with
  | none => none
  | some tid =>
    if tid = 0 then none
    else
      match cat.shows.find? (fun s => s.tmdb_id = tid) with
      | some s =>
        let s' := refreshShow s r
        some ({ cat with shows := updateShowRow tid s' cat.shows }, s')
      | none =>
        let fresh : TVShow := ⟨cat.nextShowId, tid, [], none, none, none, false⟩
        let s' := refreshShow fresh r
        some ({ cat with shows := cat.shows ++ [s'], nextShowId := cat.nextShowId + 1 }, s')

/-- The movie half of the TMDB fallback loop: enumerate the (already
truncated) results, upsert each, skip falsy ids, and build one match per
upserted row with confidence 0.9 at index 0 and 0.75 after. -/
def movieLoop (ext : ExtractedTitle) : Catalog → Nat → List RemoteResult →
    Catalog × List TitleMatch
  | cat, _, [] => (cat, [])
  | cat, idx, r :: rest =>
    match upsertMovie cat r with
    | none => movieLoop ext cat (idx + 1) rest
    | some (cat', mv) =>
      ((movieLoop ext cat' (idx + 1) rest).1,
        ⟨ext.id, .movie, some mv.tmdb_id, some mv.id,
          (if idx = 0 then (0.9 : ℚ) else 0.75), some .tmdb_search, false⟩
          :: (movieLoop ext cat' (idx + 1) rest).2)

/-- The TV half of the TMDB fallback loop. -/
def showLoop (ext : ExtractedTitle) : Catalog → Nat → List RemoteResult →
    Catalog × List TitleMatch
  | cat, _, [] => (cat, [])
  | cat, idx, r :: rest =>
    match upsertShow cat r with
    | none => showLoop ext cat (idx + 1) rest
    | some (cat', sh) =>
      ((showLoop ext cat' (idx + 1) rest).1,
        ⟨ext.id, .tv, some sh.tmdb_id, some sh.id,
          (if idx = 0 then (0.9 : ℚ) else 0.75), some .tmdb_search, false⟩
          :: (showLoop ext cat' (idx + 1) rest).2)

/-- Lines 70-74 and 160-163 of `importer/search.py`: mark every match
ambiguous when more than one was produced. -/
def markAmbiguous (ms : List TitleMatch) : List TitleMatch :=
  if ms.length > 1 then ms.map (fun m => { m with is_ambiguous := true }) else ms

/-- A local-branch movie match (confidence 0.95, method `local_exact`). -/
def mkLocalMovieMatch (ext : ExtractedTitle) (m : Movie) : TitleMatch :=
  ⟨ext.id, .movie, some m.tmdb_id, some m.id, 0.95, some .local_exact, false⟩

/-- A local-branch show match. -/
def mkLocalShowMatch (ext : ExtractedTitle) (s : TVShow) : TitleMatch :=
  ⟨ext.id, .tv, some s.tmdb_id, some s.id, 0.95, some .local_exact, false⟩

/-- Result of one matcher run: the updated catalog, the matches, and the
remote-provider calls that were issued. -/
structure MatchOutcome where
  catalog : Catalog
  matches' : List TitleMatch
  providerCalls : List (MediaType × List Char × Option Int)
deriving DecidableEq

/-- `title = (extracted.normalized_title or "").strip()`. -/
def matcherTitle (ext : ExtractedTitle) : List Char :=
  pyStrip (ext.normalized_title.getD [])

/-- The year filter of the local query: `if year:` applies the filter only
to a truthy (non-null, non-zero) year. -/
def matcherYearFilter (ext : ExtractedTitle) : Option Int :=
  if truthyI ext.year then ext.year else none

/-- The local-branch match list: movie matches then show matches. -/
def localMatchList (cat : Catalog) (ext : ExtractedTitle) : List TitleMatch :=
  (localMovies cat (matcherTitle ext) (matcherYearFilter ext)).map (mkLocalMovieMatch ext)
    ++ (localShows cat (matcherTitle ext) (matcherYearFilter ext)).map (mkLocalShowMatch ext)

/-- The TMDB fallback branch: query both kinds, run both upsert loops on
the top 3 results each, and mark ambiguity on the combined list. -/
def remoteOutcome (provM provT : List Char → Option Int → List RemoteResult)
    (cat : Catalog) (ext : ExtractedTitle) : MatchOutcome :=
  let mo := movieLoop ext cat 0 ((provM (matcherTitle ext) ext.year).take 3)
  let so := showLoop ext mo.1 0 ((provT (matcherTitle ext) ext.year).take 3)
  ⟨so.1, markAmbiguous (mo.2 ++ so.2),
    [(.movie, matcherTitle ext, ext.year), (.tv, matcherTitle ext, ext.year)]⟩

/-- `find_matches_for_extracted_title`: local case-insensitive exact
search ranked by popularity, else a TMDB fallback (top 3 per kind) with
upserts, and ambiguity marking of the final list.  The remote provider is
passed as a pair of query oracles. -/
def find_matches_for_extracted_title
    (provM provT : List Char → Option Int → List RemoteResult)
    (cat : Catalog) (ext : ExtractedTitle) : MatchOutcome :=
  if matcherTitle ext = [] then ⟨cat, [], []⟩
  else if localMatchList cat ext = [] then remoteOutcome provM provT cat ext
  else ⟨cat, markAmbiguous (localMatchList cat ext), []⟩

/-- Confidence assignment of the fallback loop, per the amended claim C6:
one entry per processed result with a truthy external id, 0.9 exactly at
provider position 0 and 0.75 at later positions. -/
def confSpec : Nat → List RemoteResult → List ℚ
  | _, [] => []
  | idx, r :: rs =>
    if truthyN r.id then
      (if idx = 0 then (0.9 : ℚ) else 0.75) :: confSpec (idx + 1) rs
    else confSpec (idx + 1) rs

/-! Lemmas about the upsert helpers and the fallback loops. -/

theorem refreshMovie_id (m : Movie) (r : RemoteResult) : (refreshMovie m r).id = m.id := rfl

theorem refreshMovie_tmdb (m : Movie) (r : RemoteResult) :
    (refreshMovie m r).tmdb_id = m.tmdb_id := rfl

theorem refreshShow_id (s : TVShow) (r : RemoteResult) : (refreshShow s r).id = s.id := rfl

theorem refreshShow_tmdb (s : TVShow) (r : RemoteResult) :
    (refreshShow s r).tmdb_id = s.tmdb_id := rfl

theorem mem_updateMovieRow {tid : Nat} {m' row : Movie} :
    ∀ {l : List Movie}, row ∈ updateMovieRow tid m' l → row = m' ∨ row ∈ l := by
  intro l h
  induction l with
  | nil => simp [updateMovieRow] at h
  | cons x xs ih =>
    unfold updateMovieRow at h
    by_cases hx : x.tmdb_id = tid
    · rw [if_pos hx] at h
      rcases List.mem_cons.mp h with h1 | h1
      · exact Or.inl h1
      · exact Or.inr (List.mem_cons_of_mem x h1)
    · rw [if_neg hx] at h
      rcases List.mem_cons.mp h with h1 | h1
      · exact Or.inr (h1 ▸ List.mem_cons_self x xs)
      · rcases ih h1 with h2 | h2
        · exact Or.inl h2
        · exact Or.inr (List.mem_cons_of_mem x h2)

theorem updateMovieRow_self {tid : Nat} {m m' : Movie} :
    ∀ {l : List Movie}, l.find? (fun x => x.tmdb_id = tid) = some m →
      m' ∈ updateMovieRow tid m' l := by
  intro l h
  induction l with
  | nil => simp [List.find?] at h
  | cons x xs ih =>
    unfold updateMovieRow
    by_cases hx : x.tmdb_id = tid
    · rw [if_pos hx]; exact List.mem_cons_self m' _
    · rw [if_neg hx]
      refine List.mem_cons_of_mem x (ih ?_)
      simpa [List.find?_cons, hx] using h

theorem updateMovieRow_preserve {tid : Nat} {m m' : Movie}
    (hid : m'.id = m.id) (htm : m'.tmdb_id = m.tmdb_id) :
    ∀ {l : List Movie}, l.find? (fun x => x.tmdb_id = tid) = some m →
      ∀ row ∈ l, ∃ row' ∈ updateMovieRow tid m' l, row'.id = row.id ∧ row'.tmdb_id = row.tmdb_id := by
  intro l h
  induction l with
  | nil => intro row hrow; simp at hrow
  | cons x xs ih =>
    intro row hrow
    unfold updateMovieRow
    by_cases hx : x.tmdb_id = tid
    · rw [if_pos hx]
      have hxm : x = m := by simpa [List.find?_cons, hx] using h
      rcases List.mem_cons.mp hrow with h1 | h1
      · exact ⟨m', List.mem_cons_self m' xs, by rw [hid, ← hxm, h1], by rw [htm, ← hxm, h1]⟩
      · exact ⟨row, List.mem_cons_of_mem m' h1, rfl, rfl⟩
    · rw [if_neg hx]
      have h' : List.find? (fun x => decide (x.tmdb_id = tid)) xs = some m := by
        simpa [List.find?_cons, hx] using h
      rcases List.mem_cons.mp hrow with h1 | h1
      · exact ⟨x, h1 ▸ List.mem_cons_self x _, by rw [h1], by rw [h1]⟩
      · obtain ⟨row', hmem, h2, h3⟩ := ih h' row h1
        exact ⟨row', List.mem_cons_of_mem x hmem, h2, h3⟩

theorem upsertMovie_none_iff (cat : Catalog) (r : RemoteResult) :
    upsertMovie cat r = none ↔ truthyN r.id = false := by
  cases hid : r.id with
  | none => simp [upsertMovie, hid, truthyN]
  | some tid =>
    by_cases h0 : tid = 0
    · simp [upsertMovie, hid, h0, truthyN]
    · cases hfind : cat.movies.find? (fun m => m.tmdb_id = tid) with
      | some m => simp [upsertMovie, hid, h0, hfind, truthyN]
      | none => simp [upsertMovie, hid, h0, hfind, truthyN]

theorem upsertMovie_some {cat : Catalog} {r : RemoteResult} {cat' : Catalog} {mv : Movie}
    (h : upsertMovie cat r = some (cat', mv)) :
    r.id = some mv.tmdb_id ∧ mv.tmdb_id ≠ 0 ∧ mv ∈ cat'.movies ∧
      cat'.shows = cat.shows ∧ cat'.nextShowId = cat.nextShowId ∧
      (∀ row ∈ cat.movies, ∃ row' ∈ cat'.movies, row'.id = row.id ∧ row'.tmdb_id = row.tmdb_id) ∧
      (∀ row' ∈ cat'.movies, (∃ row ∈ cat.movies, row.tmdb_id = row'.tmdb_id) ∨
        (r.id = some row'.tmdb_id ∧ row'.tmdb_id ≠ 0)) := by
  cases hid : r.id with
  | none => simp [upsertMovie, hid] at h
  | some tid =>
    simp only [upsertMovie, hid] at h
    by_cases h0 : tid = 0
    · rw [if_pos h0] at h; cases h
    · rw [if_neg h0] at h
      cases hfind : cat.movies.find? (fun m => m.tmdb_id = tid) with
      | some m =>
        rw [hfind] at h
        simp only [] at h
        have h2 := Option.some.inj h
        have hcat : cat' = { cat with movies := updateMovieRow tid (refreshMovie m r) cat.movies } :=
          (congrArg Prod.fst h2).symm
        have hmv : mv = refreshMovie m r := (congrArg Prod.snd h2).symm
        have hmtid : m.tmdb_id = tid := by
          simpa using List.find?_some hfind
        have hmvtid : mv.tmdb_id = tid := by rw [hmv, refreshMovie_tmdb, hmtid]
        refine ⟨by rw [hmvtid], by rw [hmvtid]; exact h0, ?_, by rw [hcat], by rw [hcat], ?_, ?_⟩
        · rw [hcat, hmv]
          exact updateMovieRow_self hfind
        · intro row hrow
          rw [hcat]
          exact updateMovieRow_preserve (refreshMovie_id m r) (refreshMovie_tmdb m r)
            hfind row hrow
        · intro row' hrow'
          rw [hcat] at hrow'
          rcases mem_updateMovieRow hrow' with h1 | h1
          · right
            constructor
            · rw [h1, refreshMovie_tmdb, hmtid]
            · rw [h1, refreshMovie_tmdb, hmtid]; exact h0
          · exact Or.inl ⟨row', h1, rfl⟩
      | none =>
        rw [hfind] at h
        have h2 := Option.some.inj h
        have hcat : cat' = { cat with
            movies := cat.movies ++ [refreshMovie ⟨cat.nextMovieId, tid, [], none, none, none, false⟩ r],
            nextMovieId := cat.nextMovieId + 1 } := (congrArg Prod.fst h2).symm
        have hmv : mv = refreshMovie ⟨cat.nextMovieId, tid, [], none, none, none, false⟩ r :=
          (congrArg Prod.snd h2).symm
        have hmvtid : mv.tmdb_id = tid := by rw [hmv, refreshMovie_tmdb]
        refine ⟨by rw [hmvtid], by rw [hmvtid]; exact h0, ?_, by rw [hcat], by rw [hcat], ?_, ?_⟩
        · rw [hcat, hmv]
          simp
        · intro row hrow
          rw [hcat]
          exact ⟨row, by simp [hrow], rfl, rfl⟩
        · intro row' hrow'
          rw [hcat] at hrow'
          simp only [List.mem_append, List.mem_singleton] at hrow'
          rcases hrow' with h1 | h1
          · exact Or.inl ⟨row', h1, rfl⟩
          · right
            constructor
            · rw [h1, refreshMovie_tmdb]
            · rw [h1, refreshMovie_tmdb]; exact h0

theorem mem_updateShowRow {tid : Nat} {s' row : TVShow} :
    ∀ {l : List TVShow}, row ∈ updateShowRow tid s' l → row = s' ∨ row ∈ l := by
  intro l h
  induction l with
  | nil => simp [updateShowRow] at h
  | cons x xs ih =>
    unfold updateShowRow at h
    by_cases hx : x.tmdb_id = tid
    · rw [if_pos hx] at h
      rcases List.mem_cons.mp h with h1 | h1
      · exact Or.inl h1
      · exact Or.inr (List.mem_cons_of_mem x h1)
    · rw [if_neg hx] at h
      rcases List.mem_cons.mp h with h1 | h1
      · exact Or.inr (h1 ▸ List.mem_cons_self x xs)
      · rcases ih h1 with h2 | h2
        · exact Or.inl h2
        · exact Or.inr (List.mem_cons_of_mem x h2)

theorem updateShowRow_self {tid : Nat} {s s' : TVShow} :
    ∀ {l : List TVShow}, l.find? (fun x => x.tmdb_id = tid) = some s →
      s' ∈ updateShowRow tid s' l := by
  intro l h
  induction l with
  | nil => simp [List.find?] at h
  | cons x xs ih =>
    unfold updateShowRow
    by_cases hx : x.tmdb_id = tid
    · rw [if_pos hx]; exact List.mem_cons_self s' _
    · rw [if_neg hx]
      refine List.mem_cons_of_mem x (ih ?_)
      simpa [List.find?_cons, hx] using h

theorem updateShowRow_preserve {tid : Nat} {s s' : TVShow}
    (hid : s'.id = s.id) (htm : s'.tmdb_id = s.tmdb_id) :
    ∀ {l : List TVShow}, l.find? (fun x => x.tmdb_id = tid) = some s →
      ∀ row ∈ l, ∃ row' ∈ updateShowRow tid s' l, row'.id = row.id ∧ row'.tmdb_id = row.tmdb_id := by
  intro l h
  induction l with
  | nil => intro row hrow; simp at hrow
  | cons x xs ih =>
    intro row hrow
    unfold updateShowRow
    by_cases hx : x.tmdb_id = tid
    · rw [if_pos hx]
      have hxm : x = s := by simpa [List.find?_cons, hx] using h
      rcases List.mem_cons.mp hrow with h1 | h1
      · exact ⟨s', List.mem_cons_self s' xs, by rw [hid, ← hxm, h1], by rw [htm, ← hxm, h1]⟩
      · exact ⟨row, List.mem_cons_of_mem s' h1, rfl, rfl⟩
    · rw [if_neg hx]
      have h' : List.find? (fun x => decide (x.tmdb_id = tid)) xs = some s := by
        simpa [List.find?_cons, hx] using h
      rcases List.mem_cons.mp hrow with h1 | h1
      · exact ⟨x, h1 ▸ List.mem_cons_self x _, by rw [h1], by rw [h1]⟩
      · obtain ⟨row', hmem, h2, h3⟩ := ih h' row h1
        exact ⟨row', List.mem_cons_of_mem x hmem, h2, h3⟩

theorem upsertShow_none_iff (cat : Catalog) (r : RemoteResult) :
    upsertShow cat r = none ↔ truthyN r.id = false := by
  cases hid : r.id with
  | none => simp [upsertShow, hid, truthyN]
  | some tid =>
    by_cases h0 : tid = 0
    · simp [upsertShow, hid, h0, truthyN]
    · cases hfind : cat.shows.find? (fun s => s.tmdb_id = tid) with
      | some s => simp [upsertShow, hid, h0, hfind, truthyN]
      | none => simp [upsertShow, hid, h0, hfind, truthyN]

theorem upsertShow_some {cat : Catalog} {r : RemoteResult} {cat' : Catalog} {sh : TVShow}
    (h : upsertShow cat r = some (cat', sh)) :
    r.id = some sh.tmdb_id ∧ sh.tmdb_id ≠ 0 ∧ sh ∈ cat'.shows ∧
      cat'.movies = cat.movies ∧ cat'.nextMovieId = cat.nextMovieId ∧
      (∀ row ∈ cat.shows, ∃ row' ∈ cat'.shows, row'.id = row.id ∧ row'.tmdb_id = row.tmdb_id) ∧
      (∀ row' ∈ cat'.shows, (∃ row ∈ cat.shows, row.tmdb_id = row'.tmdb_id) ∨
        (r.id = some row'.tmdb_id ∧ row'.tmdb_id ≠ 0)) := by
  cases hid : r.id with
  | none => simp [upsertShow, hid] at h
  | some tid =>
    simp only [upsertShow, hid] at h
    by_cases h0 : tid = 0
    · rw [if_pos h0] at h; cases h
    · rw [if_neg h0] at h
      cases hfind : cat.shows.find? (fun s => s.tmdb_id = tid) with
      | some s =>
        rw [hfind] at h
        simp only [] at h
        have h2 := Option.some.inj h
        have hcat : cat' = { cat with shows := updateShowRow tid (refreshShow s r) cat.shows } :=
          (congrArg Prod.fst h2).symm
        have hsh : sh = refreshShow s r := (congrArg Prod.snd h2).symm
        have hstid : s.tmdb_id = tid := by
          simpa using List.find?_some hfind
        have hshtid : sh.tmdb_id = tid := by rw [hsh, refreshShow_tmdb, hstid]
        refine ⟨by rw [hshtid], by rw [hshtid]; exact h0, ?_, by rw [hcat], by rw [hcat], ?_, ?_⟩
        · rw [hcat, hsh]
          exact updateShowRow_self hfind
        · intro row hrow
          rw [hcat]
          exact updateShowRow_preserve (refreshShow_id s r) (refreshShow_tmdb s r)
            hfind row hrow
        · intro row' hrow'
          rw [hcat] at hrow'
          rcases mem_updateShowRow hrow' with h1 | h1
          · right
            constructor
            · rw [h1, refreshShow_tmdb, hstid]
            · rw [h1, refreshShow_tmdb, hstid]; exact h0
          · exact Or.inl ⟨row', h1, rfl⟩
      | none =>
        rw [hfind] at h
        simp only [] at h
        have h2 := Option.some.inj h
        have hcat : cat' = { cat with
            shows := cat.shows ++ [refreshShow ⟨cat.nextShowId, tid, [], none, none, none, false⟩ r],
            nextShowId := cat.nextShowId + 1 } := (congrArg Prod.fst h2).symm
        have hsh : sh = refreshShow ⟨cat.nextShowId, tid, [], none, none, none, false⟩ r :=
          (congrArg Prod.snd h2).symm
        have hshtid : sh.tmdb_id = tid := by rw [hsh, refreshShow_tmdb]
        refine ⟨by rw [hshtid], by rw [hshtid]; exact h0, ?_, by rw [hcat], by rw [hcat], ?_, ?_⟩
        · rw [hcat, hsh]
          simp
        · intro row hrow
          rw [hcat]
          exact ⟨row, by simp [hrow], rfl, rfl⟩
        · intro row' hrow'
          rw [hcat] at hrow'
          simp only [List.mem_append, List.mem_singleton] at hrow'
          rcases hrow' with h1 | h1
          · exact Or.inl ⟨row', h1, rfl⟩
          · right
            constructor
            · rw [h1, refreshShow_tmdb]
            · rw [h1, refreshShow_tmdb]; exact h0

theorem movieLoop_main (ext : ExtractedTitle) :
    ∀ (rs : List RemoteResult) (cat : Catalog) (idx : Nat),
      (movieLoop ext cat idx rs).1.shows = cat.shows ∧
      (movieLoop ext cat idx rs).1.nextShowId = cat.nextShowId ∧
      (∀ row ∈ cat.movies, ∃ row' ∈ (movieLoop ext cat idx rs).1.movies,
          row'.id = row.id ∧ row'.tmdb_id = row.tmdb_id) ∧
      (∀ m ∈ (movieLoop ext cat idx rs).2,
        m.media_type = .movie ∧ m.match_method = some .tmdb_search ∧
        m.is_ambiguous = false ∧ m.extracted_title_id = ext.id ∧
        (m.confidence = 0.9 ∨ m.confidence = 0.75) ∧
        ∃ row ∈ (movieLoop ext cat idx rs).1.movies,
          some row.id = m.local_id ∧ some row.tmdb_id = m.tmdb_id ∧ row.tmdb_id ≠ 0) := by
  intro rs
  induction rs with
  | nil =>
    intro cat idx
    refine ⟨rfl, rfl, ?_, ?_⟩
    · intro row hrow; exact ⟨row, hrow, rfl, rfl⟩
    · intro m hm; simp [movieLoop] at hm
  | cons r rest ih =>
    intro cat idx
    cases hup : upsertMovie cat r with
    | none =>
      have heq : movieLoop ext cat idx (r :: rest) = movieLoop ext cat (idx + 1) rest := by
        simp [movieLoop, hup]
      rw [heq]
      exact ih cat (idx + 1)
    | some pair =>
      obtain ⟨cat', mv⟩ := pair
      obtain ⟨hid, htid0, hmem, hshows, hnext, hpres, _⟩ := upsertMovie_some hup
      have heq1 : (movieLoop ext cat idx (r :: rest)).1 = (movieLoop ext cat' (idx + 1) rest).1 := by
        simp [movieLoop, hup]
      have heq2 : (movieLoop ext cat idx (r :: rest)).2 =
          (⟨ext.id, .movie, some mv.tmdb_id, some mv.id,
            (if idx = 0 then (0.9 : ℚ) else 0.75), some .tmdb_search, false⟩ : TitleMatch)
            :: (movieLoop ext cat' (idx + 1) rest).2 := by
        simp [movieLoop, hup]
      obtain ⟨ih1, ih2, ih3, ih4⟩ := ih cat' (idx + 1)
      rw [heq1, heq2]
      refine ⟨by rw [ih1, hshows], by rw [ih2, hnext], ?_, ?_⟩
      · intro row hrow
        obtain ⟨row1, hrow1, e1, e2⟩ := hpres row hrow
        obtain ⟨row2, hrow2, f1, f2⟩ := ih3 row1 hrow1
        exact ⟨row2, hrow2, by rw [f1, e1], by rw [f2, e2]⟩
      · intro m hm
        rcases List.mem_cons.mp hm with h1 | h1
        · subst h1
          refine ⟨rfl, rfl, rfl, rfl, ?_, ?_⟩
          · by_cases hidx : idx = 0
            · left; simp [hidx]
            · right; simp [hidx]
          · obtain ⟨row2, hrow2, f1, f2⟩ := ih3 mv hmem
            exact ⟨row2, hrow2, by simp [f1], by simp [f2], by rw [f2]; exact htid0⟩
        · exact ih4 m h1

theorem showLoop_main (ext : ExtractedTitle) :
    ∀ (rs : List RemoteResult) (cat : Catalog) (idx : Nat),
      (showLoop ext cat idx rs).1.movies = cat.movies ∧
      (showLoop ext cat idx rs).1.nextMovieId = cat.nextMovieId ∧
      (∀ row ∈ cat.shows, ∃ row' ∈ (showLoop ext cat idx rs).1.shows,
          row'.id = row.id ∧ row'.tmdb_id = row.tmdb_id) ∧
      (∀ m ∈ (showLoop ext cat idx rs).2,
        m.media_type = .tv ∧ m.match_method = some .tmdb_search ∧
        m.is_ambiguous = false ∧ m.extracted_title_id = ext.id ∧
        (m.confidence = 0.9 ∨ m.confidence = 0.75) ∧
        ∃ row ∈ (showLoop ext cat idx rs).1.shows,
          some row.id = m.local_id ∧ some row.tmdb_id = m.tmdb_id ∧ row.tmdb_id ≠ 0) := by
  intro rs
  induction rs with
  | nil =>
    intro cat idx
    refine ⟨rfl, rfl, ?_, ?_⟩
    · intro row hrow; exact ⟨row, hrow, rfl, rfl⟩
    · intro m hm; simp [showLoop] at hm
  | cons r rest ih =>
    intro cat idx
    cases hup : upsertShow cat r with
    | none =>
      have heq : showLoop ext cat idx (r :: rest) = showLoop ext cat (idx + 1) rest := by
        simp [showLoop, hup]
      rw [heq]
      exact ih cat (idx + 1)
    | some pair =>
      obtain ⟨cat', sh⟩ := pair
      obtain ⟨hid, htid0, hmem, hmovies, hnext, hpres, _⟩ := upsertShow_some hup
      have heq1 : (showLoop ext cat idx (r :: rest)).1 = (showLoop ext cat' (idx + 1) rest).1 := by
        simp [showLoop, hup]
      have heq2 : (showLoop ext cat idx (r :: rest)).2 =
          (⟨ext.id, .tv, some sh.tmdb_id, some sh.id,
            (if idx = 0 then (0.9 : ℚ) else 0.75), some .tmdb_search, false⟩ : TitleMatch)
            :: (showLoop ext cat' (idx + 1) rest).2 := by
        simp [showLoop, hup]
      obtain ⟨ih1, ih2, ih3, ih4⟩ := ih cat' (idx + 1)
      rw [heq1, heq2]
      refine ⟨by rw [ih1, hmovies], by rw [ih2, hnext], ?_, ?_⟩
      · intro row hrow
        obtain ⟨row1, hrow1, e1, e2⟩ := hpres row hrow
        obtain ⟨row2, hrow2, f1, f2⟩ := ih3 row1 hrow1
        exact ⟨row2, hrow2, by rw [f1, e1], by rw [f2, e2]⟩
      · intro m hm
        rcases List.mem_cons.mp hm with h1 | h1
        · subst h1
          refine ⟨rfl, rfl, rfl, rfl, ?_, ?_⟩
          · by_cases hidx : idx = 0
            · left; simp [hidx]
            · right; simp [hidx]
          · obtain ⟨row2, hrow2, f1, f2⟩ := ih3 sh hmem
            exact ⟨row2, hrow2, by simp [f1], by simp [f2], by rw [f2]; exact htid0⟩
        · exact ih4 m h1

theorem movieLoop_origin (ext : ExtractedTitle) :
    ∀ (rs : List RemoteResult) (cat : Catalog) (idx : Nat),
      ∀ row' ∈ (movieLoop ext cat idx rs).1.movies,
        (∃ row ∈ cat.movies, row.tmdb_id = row'.tmdb_id) ∨
        (∃ r ∈ rs, r.id = some row'.tmdb_id ∧ row'.tmdb_id ≠ 0) := by
  intro rs
  induction rs with
  | nil => intro cat idx row' h; exact Or.inl ⟨row', h, rfl⟩
  | cons r rest ih =>
    intro cat idx row' h
    cases hup : upsertMovie cat r with
    | none =>
      rw [show movieLoop ext cat idx (r :: rest) = movieLoop ext cat (idx + 1) rest by
        simp [movieLoop, hup]] at h
      rcases ih cat (idx + 1) row' h with h1 | ⟨r1, hr1, h2⟩
      · exact Or.inl h1
      · exact Or.inr ⟨r1, List.mem_cons_of_mem r hr1, h2⟩
    | some pair =>
      obtain ⟨cat', mv⟩ := pair
      obtain ⟨_, _, _, _, _, _, horigin⟩ := upsertMovie_some hup
      rw [show (movieLoop ext cat idx (r :: rest)).1 = (movieLoop ext cat' (idx + 1) rest).1 by
        simp [movieLoop, hup]] at h
      rcases ih cat' (idx + 1) row' h with ⟨row1, hrow1, e1⟩ | ⟨r1, hr1, h2⟩
      · rcases horigin row1 hrow1 with ⟨row0, hrow0, e0⟩ | ⟨e0, e0'⟩
        · exact Or.inl ⟨row0, hrow0, by rw [e0, e1]⟩
        · exact Or.inr ⟨r, List.mem_cons_self r rest, by rw [e0, e1], by rw [← e1]; exact e0'⟩
      · exact Or.inr ⟨r1, List.mem_cons_of_mem r hr1, h2⟩

theorem showLoop_origin (ext : ExtractedTitle) :
    ∀ (rs : List RemoteResult) (cat : Catalog) (idx : Nat),
      ∀ row' ∈ (showLoop ext cat idx rs).1.shows,
        (∃ row ∈ cat.shows, row.tmdb_id = row'.tmdb_id) ∨
        (∃ r ∈ rs, r.id = some row'.tmdb_id ∧ row'.tmdb_id ≠ 0) := by
  intro rs
  induction rs with
  | nil => intro cat idx row' h; exact Or.inl ⟨row', h, rfl⟩
  | cons r rest ih =>
    intro cat idx row' h
    cases hup : upsertShow cat r with
    | none =>
      rw [show showLoop ext cat idx (r :: rest) = showLoop ext cat (idx + 1) rest by
        simp [showLoop, hup]] at h
      rcases ih cat (idx + 1) row' h with h1 | ⟨r1, hr1, h2⟩
      · exact Or.inl h1
      · exact Or.inr ⟨r1, List.mem_cons_of_mem r hr1, h2⟩
    | some pair =>
      obtain ⟨cat', sh⟩ := pair
      obtain ⟨_, _, _, _, _, _, horigin⟩ := upsertShow_some hup
      rw [show (showLoop ext cat idx (r :: rest)).1 = (showLoop ext cat' (idx + 1) rest).1 by
        simp [showLoop, hup]] at h
      rcases ih cat' (idx + 1) row' h with ⟨row1, hrow1, e1⟩ | ⟨r1, hr1, h2⟩
      · rcases horigin row1 hrow1 with ⟨row0, hrow0, e0⟩ | ⟨e0, e0'⟩
        · exact Or.inl ⟨row0, hrow0, by rw [e0, e1]⟩
        · exact Or.inr ⟨r, List.mem_cons_self r rest, by rw [e0, e1], by rw [← e1]; exact e0'⟩
      · exact Or.inr ⟨r1, List.mem_cons_of_mem r hr1, h2⟩

theorem movieLoop_entry (ext : ExtractedTitle) :
    ∀ (rs : List RemoteResult) (cat : Catalog) (idx : Nat),
      ∀ r ∈ rs, truthyN r.id = true →
        ∃ row ∈ (movieLoop ext cat idx rs).1.movies, r.id = some row.tmdb_id := by
  intro rs
  induction rs with
  | nil => intro cat idx r hr; simp at hr
  | cons r0 rest ih =>
    intro cat idx r hr htr
    cases hup : upsertMovie cat r0 with
    | none =>
      rw [show movieLoop ext cat idx (r0 :: rest) = movieLoop ext cat (idx + 1) rest by
        simp [movieLoop, hup]]
      rcases List.mem_cons.mp hr with h1 | h1
      · subst h1
        rw [upsertMovie_none_iff] at hup
        rw [htr] at hup
        cases hup
      · exact ih cat (idx + 1) r h1 htr
    | some pair =>
      obtain ⟨cat', mv⟩ := pair
      obtain ⟨hid, _, hmem, _, _, _, _⟩ := upsertMovie_some hup
      rw [show (movieLoop ext cat idx (r0 :: rest)).1 = (movieLoop ext cat' (idx + 1) rest).1 by
        simp [movieLoop, hup]]
      rcases List.mem_cons.mp hr with h1 | h1
      · subst h1
        obtain ⟨_, _, ih3, _⟩ := movieLoop_main ext rest cat' (idx + 1)
        obtain ⟨row2, hrow2, _, f2⟩ := ih3 mv hmem
        exact ⟨row2, hrow2, by rw [hid, f2]⟩
      · exact ih cat' (idx + 1) r h1 htr

theorem showLoop_entry (ext : ExtractedTitle) :
    ∀ (rs : List RemoteResult) (cat : Catalog) (idx : Nat),
      ∀ r ∈ rs, truthyN r.id = true →
        ∃ row ∈ (showLoop ext cat idx rs).1.shows, r.id = some row.tmdb_id := by
  intro rs
  induction rs with
  | nil => intro cat idx r hr; simp at hr
  | cons r0 rest ih =>
    intro cat idx r hr htr
    cases hup : upsertShow cat r0 with
    | none =>
      rw [show showLoop ext cat idx (r0 :: rest) = showLoop ext cat (idx + 1) rest by
        simp [showLoop, hup]]
      rcases List.mem_cons.mp hr with h1 | h1
      · subst h1
        rw [upsertShow_none_iff] at hup
        rw [htr] at hup
        cases hup
      · exact ih cat (idx + 1) r h1 htr
    | some pair =>
      obtain ⟨cat', sh⟩ := pair
      obtain ⟨hid, _, hmem, _, _, _, _⟩ := upsertShow_some hup
      rw [show (showLoop ext cat idx (r0 :: rest)).1 = (showLoop ext cat' (idx + 1) rest).1 by
        simp [showLoop, hup]]
      rcases List.mem_cons.mp hr with h1 | h1
      · subst h1
        obtain ⟨_, _, ih3, _⟩ := showLoop_main ext rest cat' (idx + 1)
        obtain ⟨row2, hrow2, _, f2⟩ := ih3 sh hmem
        exact ⟨row2, hrow2, by rw [hid, f2]⟩
      · exact ih cat' (idx + 1) r h1 htr

theorem movieLoop_match_origin (ext : ExtractedTitle) :
    ∀ (rs : List RemoteResult) (cat : Catalog) (idx : Nat),
      ∀ m ∈ (movieLoop ext cat idx rs).2,
        ∃ r ∈ rs, truthyN r.id = true ∧ r.id = m.tmdb_id := by
  intro rs
  induction rs with
  | nil => intro cat idx m hm; simp [movieLoop] at hm
  | cons r0 rest ih =>
    intro cat idx m hm
    cases hup : upsertMovie cat r0 with
    | none =>
      rw [show movieLoop ext cat idx (r0 :: rest) = movieLoop ext cat (idx + 1) rest by
        simp [movieLoop, hup]] at hm
      obtain ⟨r, hr, h2⟩ := ih cat (idx + 1) m hm
      exact ⟨r, List.mem_cons_of_mem r0 hr, h2⟩
    | some pair =>
      obtain ⟨cat', mv⟩ := pair
      obtain ⟨hid, hne, _, _, _, _, _⟩ := upsertMovie_some hup
      rw [show (movieLoop ext cat idx (r0 :: rest)).2
          = ⟨ext.id, .movie, some mv.tmdb_id, some mv.id,
              (if idx = 0 then (0.9 : ℚ) else 0.75), some .tmdb_search, false⟩
            :: (movieLoop ext cat' (idx + 1) rest).2 by
        simp [movieLoop, hup]] at hm
      rcases List.mem_cons.mp hm with h1 | h1
      · subst h1
        exact ⟨r0, List.mem_cons_self r0 rest, by rw [hid]; simp [truthyN, hne], hid⟩
      · obtain ⟨r, hr, h2⟩ := ih cat' (idx + 1) m h1
        exact ⟨r, List.mem_cons_of_mem r0 hr, h2⟩

theorem showLoop_match_origin (ext : ExtractedTitle) :
    ∀ (rs : List RemoteResult) (cat : Catalog) (idx : Nat),
      ∀ m ∈ (showLoop ext cat idx rs).2,
        ∃ r ∈ rs, truthyN r.id = true ∧ r.id = m.tmdb_id := by
  intro rs
  induction rs with
  | nil => intro cat idx m hm; simp [showLoop] at hm
  | cons r0 rest ih =>
    intro cat idx m hm
    cases hup : upsertShow cat r0 with
    | none =>
      rw [show showLoop ext cat idx (r0 :: rest) = showLoop ext cat (idx + 1) rest by
        simp [showLoop, hup]] at hm
      obtain ⟨r, hr, h2⟩ := ih cat (idx + 1) m hm
      exact ⟨r, List.mem_cons_of_mem r0 hr, h2⟩
    | some pair =>
      obtain ⟨cat', sh⟩ := pair
      obtain ⟨hid, hne, _, _, _, _, _⟩ := upsertShow_some hup
      rw [show (showLoop ext cat idx (r0 :: rest)).2
          = ⟨ext.id, .tv, some sh.tmdb_id, some sh.id,
              (if idx = 0 then (0.9 : ℚ) else 0.75), some .tmdb_search, false⟩
            :: (showLoop ext cat' (idx + 1) rest).2 by
        simp [showLoop, hup]] at hm
      rcases List.mem_cons.mp hm with h1 | h1
      · subst h1
        exact ⟨r0, List.mem_cons_self r0 rest, by rw [hid]; simp [truthyN, hne], hid⟩
      · obtain ⟨r, hr, h2⟩ := ih cat' (idx + 1) m h1
        exact ⟨r, List.mem_cons_of_mem r0 hr, h2⟩

theorem movieLoop_ne_nil (ext : ExtractedTitle) :
    ∀ (rs : List RemoteResult) (cat : Catalog) (idx : Nat),
      (∃ r ∈ rs, truthyN r.id = true) → (movieLoop ext cat idx rs).2 ≠ [] := by
  intro rs
  induction rs with
  | nil => intro cat idx h; simp at h
  | cons r0 rest ih =>
    intro cat idx ⟨r, hr, htr⟩
    cases hup : upsertMovie cat r0 with
    | none =>
      rw [show movieLoop ext cat idx (r0 :: rest) = movieLoop ext cat (idx + 1) rest by
        simp [movieLoop, hup]]
      rcases List.mem_cons.mp hr with h1 | h1
      · subst h1
        rw [upsertMovie_none_iff] at hup
        rw [htr] at hup
        cases hup
      · exact ih cat (idx + 1) ⟨r, h1, htr⟩
    | some pair =>
      obtain ⟨cat', mv⟩ := pair
      rw [show (movieLoop ext cat idx (r0 :: rest)).2 =
          (⟨ext.id, .movie, some mv.tmdb_id, some mv.id,
            (if idx = 0 then (0.9 : ℚ) else 0.75), some .tmdb_search, false⟩ : TitleMatch)
            :: (movieLoop ext cat' (idx + 1) rest).2 by simp [movieLoop, hup]]
      simp

theorem showLoop_ne_nil (ext : ExtractedTitle) :
    ∀ (rs : List RemoteResult) (cat : Catalog) (idx : Nat),
      (∃ r ∈ rs, truthyN r.id = true) → (showLoop ext cat idx rs).2 ≠ [] := by
  intro rs
  induction rs with
  | nil => intro cat idx h; simp at h
  | cons r0 rest ih =>
    intro cat idx ⟨r, hr, htr⟩
    cases hup : upsertShow cat r0 with
    | none =>
      rw [show showLoop ext cat idx (r0 :: rest) = showLoop ext cat (idx + 1) rest by
        simp [showLoop, hup]]
      rcases List.mem_cons.mp hr with h1 | h1
      · subst h1
        rw [upsertShow_none_iff] at hup
        rw [htr] at hup
        cases hup
      · exact ih cat (idx + 1) ⟨r, h1, htr⟩
    | some pair =>
      obtain ⟨cat', sh⟩ := pair
      rw [show (showLoop ext cat idx (r0 :: rest)).2 =
          (⟨ext.id, .tv, some sh.tmdb_id, some sh.id,
            (if idx = 0 then (0.9 : ℚ) else 0.75), some .tmdb_search, false⟩ : TitleMatch)
            :: (showLoop ext cat' (idx + 1) rest).2 by simp [showLoop, hup]]
      simp

theorem movieLoop_conf (ext : ExtractedTitle) :
    ∀ (rs : List RemoteResult) (cat : Catalog) (idx : Nat),
      (movieLoop ext cat idx rs).2.map TitleMatch.confidence = confSpec idx rs := by
  intro rs
  induction rs with
  | nil => intro cat idx; simp [movieLoop, confSpec]
  | cons r rest ih =>
    intro cat idx
    cases hup : upsertMovie cat r with
    | none =>
      have htr : truthyN r.id = false := (upsertMovie_none_iff cat r).mp hup
      rw [show movieLoop ext cat idx (r :: rest) = movieLoop ext cat (idx + 1) rest by
        simp [movieLoop, hup]]
      rw [ih cat (idx + 1)]
      simp [confSpec, htr]
    | some pair =>
      obtain ⟨cat', mv⟩ := pair
      have htr : truthyN r.id = true := by
        by_contra hc
        rw [Bool.not_eq_true] at hc
        rw [(upsertMovie_none_iff cat r).mpr hc] at hup
        cases hup
      rw [show (movieLoop ext cat idx (r :: rest)).2 =
          (⟨ext.id, .movie, some mv.tmdb_id, some mv.id,
            (if idx = 0 then (0.9 : ℚ) else 0.75), some .tmdb_search, false⟩ : TitleMatch)
            :: (movieLoop ext cat' (idx + 1) rest).2 by simp [movieLoop, hup]]
      rw [List.map_cons, ih cat' (idx + 1)]
      simp [confSpec, htr]

theorem showLoop_conf (ext : ExtractedTitle) :
    ∀ (rs : List RemoteResult) (cat : Catalog) (idx : Nat),
      (showLoop ext cat idx rs).2.map TitleMatch.confidence = confSpec idx rs := by
  intro rs
  induction rs with
  | nil => intro cat idx; simp [showLoop, confSpec]
  | cons r rest ih =>
    intro cat idx
    cases hup : upsertShow cat r with
    | none =>
      have htr : truthyN r.id = false := (upsertShow_none_iff cat r).mp hup
      rw [show showLoop ext cat idx (r :: rest) = showLoop ext cat (idx + 1) rest by
        simp [showLoop, hup]]
      rw [ih cat (idx + 1)]
      simp [confSpec, htr]
    | some pair =>
      obtain ⟨cat', sh⟩ := pair
      have htr : truthyN r.id = true := by
        by_contra hc
        rw [Bool.not_eq_true] at hc
        rw [(upsertShow_none_iff cat r).mpr hc] at hup
        cases hup
      rw [show (showLoop ext cat idx (r :: rest)).2 =
          (⟨ext.id, .tv, some sh.tmdb_id, some sh.id,
            (if idx = 0 then (0.9 : ℚ) else 0.75), some .tmdb_search, false⟩ : TitleMatch)
            :: (showLoop ext cat' (idx + 1) rest).2 by simp [showLoop, hup]]
      rw [List.map_cons, ih cat' (idx + 1)]
      simp [confSpec, htr]

/-! Lemmas about ambiguity marking, the popularity sort and the local
branch. -/

theorem markAmbiguous_length (ms : List TitleMatch) : (markAmbiguous ms).length = ms.length := by
  unfold markAmbiguous
  by_cases h : ms.length > 1
  · rw [if_pos h, List.length_map]
  · rw [if_neg h]

theorem markAmbiguous_eq_of_short {ms : List TitleMatch} (h : ¬ ms.length > 1) :
    markAmbiguous ms = ms := by
  unfold markAmbiguous
  rw [if_neg h]

theorem markAmbiguous_flag {ms : List TitleMatch} (hall : ∀ m ∈ ms, m.is_ambiguous = false) :
    ∀ m' ∈ markAmbiguous ms, m'.is_ambiguous = decide (1 < (markAmbiguous ms).length) := by
  intro m' hm'
  rw [markAmbiguous_length]
  unfold markAmbiguous at hm'
  by_cases h : ms.length > 1
  · rw [if_pos h] at hm'
    obtain ⟨m, _, hm⟩ := List.mem_map.mp hm'
    rw [← hm]
    simpa using h
  · rw [if_neg h] at hm'
    rw [hall m' hm']
    symm
    simpa using h

theorem markAmbiguous_all_of_long {ms : List TitleMatch} (h : 1 < ms.length) :
    ∀ m' ∈ markAmbiguous ms, m'.is_ambiguous = true := by
  intro m' hm'
  unfold markAmbiguous at hm'
  rw [if_pos h] at hm'
  obtain ⟨m, _, hm⟩ := List.mem_map.mp hm'
  rw [← hm]

theorem mem_markAmbiguous {ms : List TitleMatch} {m' : TitleMatch}
    (h : m' ∈ markAmbiguous ms) :
    ∃ m ∈ ms, m'.media_type = m.media_type ∧ m'.tmdb_id = m.tmdb_id ∧
      m'.local_id = m.local_id ∧ m'.confidence = m.confidence ∧
      m'.match_method = m.match_method ∧ m'.extracted_title_id = m.extracted_title_id := by
  unfold markAmbiguous at h
  by_cases hl : ms.length > 1
  · rw [if_pos hl] at h
    obtain ⟨m, hm, hmm⟩ := List.mem_map.mp h
    exact ⟨m, hm, by rw [← hmm], by rw [← hmm], by rw [← hmm], by rw [← hmm],
      by rw [← hmm], by rw [← hmm]⟩
  · rw [if_neg hl] at h
    exact ⟨m', h, rfl, rfl, rfl, rfl, rfl, rfl⟩

theorem markAmbiguous_mem_of {ms : List TitleMatch} {m : TitleMatch} (h : m ∈ ms) :
    ∃ m' ∈ markAmbiguous ms, m'.media_type = m.media_type ∧ m'.tmdb_id = m.tmdb_id ∧
      m'.local_id = m.local_id := by
  unfold markAmbiguous
  by_cases hl : ms.length > 1
  · rw [if_pos hl]
    exact ⟨{ m with is_ambiguous := true }, List.mem_map_of_mem _ h, rfl, rfl, rfl⟩
  · rw [if_neg hl]
    exact ⟨m, h, rfl, rfl, rfl⟩

theorem filter_map_conf_setflag (k : MediaType) :
    ∀ ms : List TitleMatch,
      ((ms.map (fun m => { m with is_ambiguous := true })).filter
          (fun m => decide (m.media_type = k))).map TitleMatch.confidence
        = (ms.filter (fun m => decide (m.media_type = k))).map TitleMatch.confidence := by
  intro ms
  induction ms with
  | nil => rfl
  | cons m rest ih =>
    by_cases hk : m.media_type = k
    · simp only [List.map_cons, List.filter_cons]
      rw [if_pos (by simpa using hk), if_pos (by simpa using hk)]
      simp only [List.map_cons]
      rw [ih]
    · simp only [List.map_cons, List.filter_cons]
      rw [if_neg (by simpa using hk), if_neg (by simpa using hk)]
      exact ih

theorem markAmbiguous_filter_conf (k : MediaType) (ms : List TitleMatch) :
    ((markAmbiguous ms).filter (fun m => decide (m.media_type = k))).map TitleMatch.confidence
      = (ms.filter (fun m => decide (m.media_type = k))).map TitleMatch.confidence := by
  unfold markAmbiguous
  by_cases hl : ms.length > 1
  · rw [if_pos hl]
    exact filter_map_conf_setflag k ms
  · rw [if_neg hl]

theorem mem_insertPop {α} {key : α → Option ℚ} {x y : α} :
    ∀ {l : List α}, y ∈ insertPop key x l → y = x ∨ y ∈ l := by
  intro l h
  induction l with
  | nil => exact Or.inl (List.mem_singleton.mp (by simpa [insertPop] using h))
  | cons z zs ih =>
    unfold insertPop at h
    by_cases hp : popGe (key x) (key z) = true
    · rw [if_pos hp] at h
      rcases List.mem_cons.mp h with h1 | h1
      · exact Or.inl h1
      · exact Or.inr h1
    · rw [if_neg hp] at h
      rcases List.mem_cons.mp h with h1 | h1
      · exact Or.inr (h1 ▸ List.mem_cons_self z zs)
      · rcases ih h1 with h2 | h2
        · exact Or.inl h2
        · exact Or.inr (List.mem_cons_of_mem z h2)

theorem mem_sortPop {α} {key : α → Option ℚ} {y : α} :
    ∀ {l : List α}, y ∈ sortPop key l → y ∈ l := by
  intro l h
  induction l with
  | nil => simp [sortPop] at h
  | cons z zs ih =>
    unfold sortPop at h
    rcases mem_insertPop h with h1 | h1
    · exact h1 ▸ List.mem_cons_self z zs
    · exact List.mem_cons_of_mem z (ih h1)

theorem insertPop_length {α} (key : α → Option ℚ) (x : α) :
    ∀ (l : List α), (insertPop key x l).length = l.length + 1 := by
  intro l
  induction l with
  | nil => rfl
  | cons z zs ih =>
    unfold insertPop
    by_cases hp : popGe (key x) (key z) = true
    · rw [if_pos hp]; rfl
    · rw [if_neg hp]
      simp [ih]

theorem sortPop_length {α} (key : α → Option ℚ) :
    ∀ (l : List α), (sortPop key l).length = l.length := by
  intro l
  induction l with
  | nil => rfl
  | cons z zs ih =>
    unfold sortPop
    rw [insertPop_length, ih]
    simp

theorem localMovies_sub {cat : Catalog} {t : List Char} {yf : Option Int} {m : Movie}
    (h : m ∈ localMovies cat t yf) : m ∈ cat.movies := by
  unfold localMovies at h
  have h1 := List.mem_of_mem_take h
  exact List.mem_of_mem_filter (mem_sortPop h1)

theorem localShows_sub {cat : Catalog} {t : List Char} {yf : Option Int} {s : TVShow}
    (h : s ∈ localShows cat t yf) : s ∈ cat.shows := by
  unfold localShows at h
  have h1 := List.mem_of_mem_take h
  exact List.mem_of_mem_filter (mem_sortPop h1)

theorem localMatchList_fields (cat : Catalog) (ext : ExtractedTitle) :
    ∀ m ∈ localMatchList cat ext,
      m.is_ambiguous = false ∧ m.confidence = 0.95 ∧ m.match_method = some .local_exact ∧
      m.extracted_title_id = ext.id ∧ m.tmdb_id ≠ none ∧ m.local_id ≠ none ∧
      (m.media_type = .movie →
        ∃ row ∈ cat.movies, some row.id = m.local_id ∧ some row.tmdb_id = m.tmdb_id) ∧
      (m.media_type = .tv →
        ∃ row ∈ cat.shows, some row.id = m.local_id ∧ some row.tmdb_id = m.tmdb_id) := by
  intro m hm
  unfold localMatchList at hm
  rcases List.mem_append.mp hm with h1 | h1
  · obtain ⟨mv, hmv, hmk⟩ := List.mem_map.mp h1
    subst hmk
    refine ⟨rfl, rfl, rfl, rfl, by simp [mkLocalMovieMatch], by simp [mkLocalMovieMatch], ?_, ?_⟩
    · intro _
      exact ⟨mv, localMovies_sub hmv, rfl, rfl⟩
    · intro hk
      cases hk
  · obtain ⟨sh, hsh, hmk⟩ := List.mem_map.mp h1
    subst hmk
    refine ⟨rfl, rfl, rfl, rfl, by simp [mkLocalShowMatch], by simp [mkLocalShowMatch], ?_, ?_⟩
    · intro hk
      cases hk
    · intro _
      exact ⟨sh, localShows_sub hsh, rfl, rfl⟩

theorem localMatchList_length (cat : Catalog) (ext : ExtractedTitle) :
    (localMatchList cat ext).length =
      min 5 (cat.movies.filter (movieFilter (matcherTitle ext) (matcherYearFilter ext))).length
      + min 5 (cat.shows.filter (showFilter (matcherTitle ext) (matcherYearFilter ext))).length := by
  unfold localMatchList localMovies localShows
  rw [List.length_append, List.length_map, List.length_map, List.length_take,
    List.length_take, sortPop_length, sortPop_length]

theorem filter_and_eq_nil {α} {p q : α → Bool} :
    ∀ {l : List α}, l.filter p = [] → l.filter (fun x => p x && q x) = [] := by
  intro l h
  induction l with
  | nil => rfl
  | cons x xs ih =>
    rw [List.filter_cons] at h ⊢
    by_cases hp : p x = true
    · rw [if_pos hp] at h
      cases h
    · rw [if_neg hp] at h
      rw [Bool.not_eq_true] at hp
      rw [if_neg (by simp [hp])]
      exact ih h

/-! Branch dispatch for `find_matches_for_extracted_title`. -/

theorem find_matches_empty {provM provT : List Char → Option Int → List RemoteResult}
    {cat : Catalog} {ext : ExtractedTitle} (ht : matcherTitle ext = []) :
    find_matches_for_extracted_title provM provT cat ext = ⟨cat, [], []⟩ := by
  unfold find_matches_for_extracted_title
  rw [if_pos ht]

theorem find_matches_local {provM provT : List Char → Option Int → List RemoteResult}
    {cat : Catalog} {ext : ExtractedTitle} (ht : matcherTitle ext ≠ [])
    (hl : localMatchList cat ext ≠ []) :
    find_matches_for_extracted_title provM provT cat ext
      = ⟨cat, markAmbiguous (localMatchList cat ext), []⟩ := by
  unfold find_matches_for_extracted_title
  rw [if_neg ht, if_neg hl]

theorem find_matches_remote {provM provT : List Char → Option Int → List RemoteResult}
    {cat : Catalog} {ext : ExtractedTitle} (ht : matcherTitle ext ≠ [])
    (hl : localMatchList cat ext = []) :
    find_matches_for_extracted_title provM provT cat ext
      = remoteOutcome provM provT cat ext := by
  unfold find_matches_for_extracted_title
  rw [if_neg ht, if_pos hl]

theorem remoteOutcome_parts (provM provT : List Char → Option Int → List RemoteResult)
    (cat : Catalog) (ext : ExtractedTitle) :
    remoteOutcome provM provT cat ext =
      ⟨(showLoop ext (movieLoop ext cat 0 ((provM (matcherTitle ext) ext.year).take 3)).1
          0 ((provT (matcherTitle ext) ext.year).take 3)).1,
        markAmbiguous
          ((movieLoop ext cat 0 ((provM (matcherTitle ext) ext.year).take 3)).2
            ++ (showLoop ext (movieLoop ext cat 0 ((provM (matcherTitle ext) ext.year).take 3)).1
                  0 ((provT (matcherTitle ext) ext.year).take 3)).2),
        [(.movie, matcherTitle ext, ext.year), (.tv, matcherTitle ext, ext.year)]⟩ := rfl

/-- C5: after one matching round, every TitleMatch produced for an
ExtractedTitle has its ambiguous flag set exactly when more than one match
was produced for it in that round. -/
theorem C5_ambiguous_iff_multiple
    (provM provT : List Char → Option Int → List RemoteResult)
    (cat : Catalog) (ext : ExtractedTitle) :
    ∀ m ∈ (find_matches_for_extracted_title provM provT cat ext).matches',
      m.is_ambiguous =
        decide (1 < (find_matches_for_extracted_title provM provT cat ext).matches'.length) := by
  by_cases ht : matcherTitle ext = []
  · rw [find_matches_empty ht]
    intro m hm
    simp at hm
  · by_cases hl : localMatchList cat ext = []
    · rw [find_matches_remote ht hl, remoteOutcome_parts]
      intro m hm
      refine markAmbiguous_flag ?_ m hm
      intro x hx
      rcases List.mem_append.mp hx with h1 | h1
      · exact ((movieLoop_main ext _ _ _).2.2.2 x h1).2.2.1
      · exact ((showLoop_main ext _ _ _).2.2.2 x h1).2.2.1
    · rw [find_matches_local ht hl]
      intro m hm
      refine markAmbiguous_flag ?_ m hm
      intro x hx
      exact (localMatchList_fields cat ext x hx).1

/-- Concrete matcher run used as the witness of C5: a catalog with one
movie titled `M` and an extracted title `M`. -/
def c5cat : Catalog := ⟨[⟨1, 603, ['M'], none, none, none, false⟩], [], 2, 1⟩

/-- The extracted title of the C5 witness. -/
def c5ext : ExtractedTitle := ⟨1, 1, ['M'], some ['M'], none⟩

theorem C5_ambiguous_iff_multiple_witness :
    (⟨1, .movie, some 603, some 1, 0.95, some .local_exact, false⟩ : TitleMatch).is_ambiguous
      = decide (1 < (find_matches_for_extracted_title (fun _ _ => []) (fun _ _ => [])
          c5cat c5ext).matches'.length) :=
  C5_ambiguous_iff_multiple (fun _ _ => []) (fun _ _ => []) c5cat c5ext _ (by
    have h : (find_matches_for_extracted_title (fun _ _ => []) (fun _ _ => [])
        c5cat c5ext).matches'
        = [⟨1, .movie, some 603, some 1, 0.95, some .local_exact, false⟩] := rfl
    rw [h]
    exact List.mem_singleton_self _)

/-- C3, amended: when the code's own local filters (title case-insensitive,
year filter only for a truthy year) select exactly one catalog entry, the
matcher returns exactly one non-ambiguous 0.95 `local_exact` match, leaves
the catalog unchanged and issues no provider call. -/
theorem C3_local_single_amended
    (provM provT : List Char → Option Int → List RemoteResult)
    (cat : Catalog) (ext : ExtractedTitle)
    (ht : matcherTitle ext ≠ [])
    (hone : (cat.movies.filter (movieFilter (matcherTitle ext) (matcherYearFilter ext))).length
          + (cat.shows.filter (showFilter (matcherTitle ext) (matcherYearFilter ext))).length
          = 1) :
    (find_matches_for_extracted_title provM provT cat ext).matches'.length = 1 ∧
    (find_matches_for_extracted_title provM provT cat ext).providerCalls = [] ∧
    (find_matches_for_extracted_title provM provT cat ext).catalog = cat ∧
    ∀ m ∈ (find_matches_for_extracted_title provM provT cat ext).matches',
      m.is_ambiguous = false ∧ m.confidence = 0.95 ∧ m.match_method = some .local_exact := by
  have hlen : (localMatchList cat ext).length = 1 := by
    rw [localMatchList_length]
    omega
  have hl : localMatchList cat ext ≠ [] := by
    intro hnil
    rw [hnil] at hlen
    cases hlen
  rw [find_matches_local ht hl]
  have hmark : markAmbiguous (localMatchList cat ext) = localMatchList cat ext :=
    markAmbiguous_eq_of_short (by omega)
  refine ⟨?_, rfl, rfl, ?_⟩
  · show (markAmbiguous (localMatchList cat ext)).length = 1
    rw [hmark, hlen]
  · intro m hm
    have hm' : m ∈ localMatchList cat ext := by
      rw [show (⟨cat, markAmbiguous (localMatchList cat ext), []⟩ : MatchOutcome).matches'
          = markAmbiguous (localMatchList cat ext) from rfl, hmark] at hm
      exact hm
    obtain ⟨f1, f2, f3, _⟩ := localMatchList_fields cat ext m hm'
    exact ⟨f1, f2, f3⟩

/-- Witness catalog for C3: one movie matching title and year. -/
def c3wcat : Catalog := ⟨[⟨1, 603, ['T', 'M'], none, some 1999, some 50, false⟩], [], 2, 1⟩

/-- Witness extracted title for C3. -/
def c3wext : ExtractedTitle := ⟨1, 1, ['T', 'M'], some ['T', 'M'], some 1999⟩

theorem C3_local_single_amended_witness :
    (find_matches_for_extracted_title (fun _ _ => []) (fun _ _ => [])
        c3wcat c3wext).matches'.length = 1 ∧
    (find_matches_for_extracted_title (fun _ _ => []) (fun _ _ => [])
        c3wcat c3wext).providerCalls = [] :=
  ⟨(C3_local_single_amended (fun _ _ => []) (fun _ _ => []) c3wcat c3wext
      (by decide) (by decide)).1,
   (C3_local_single_amended (fun _ _ => []) (fun _ _ => []) c3wcat c3wext
      (by decide) (by decide)).2.1⟩

/-- Counterexample catalog for C3 as stated: two movies titled `X`, with
years 0 and 5. -/
def c3cat : Catalog :=
  ⟨[⟨1, 10, ['X'], none, some 0, none, false⟩, ⟨2, 11, ['X'], none, some 5, none, false⟩],
    [], 3, 1⟩

/-- Counterexample extracted title for C3: year 0 is present but falsy. -/
def c3ext : ExtractedTitle := ⟨1, 1, ['X'], some ['X'], some 0⟩

/-- Counterexample to C3 as stated: the extracted title `X` with year 0
matches exactly one catalog entry case-insensitively with equal year (the
year-0 movie), yet because `if year:` treats 0 as absent, the year filter
is dropped and the matcher returns two matches, not one. -/
theorem C3_counterexample :
    ((c3cat.movies.filter (fun m => lowerEq m.title (matcherTitle c3ext)
        && decide (m.year = c3ext.year))).length = 1 ∧
      (c3cat.shows.filter (fun s => lowerEq s.name (matcherTitle c3ext)
        && decide (s.first_air_year = c3ext.year))).length = 0) ∧
    (find_matches_for_extracted_title (fun _ _ => []) (fun _ _ => [])
        c3cat c3ext).matches'.length = 2 := by
  decide

/-- Movie-side provider oracle of the C4 counterexample: one result with
no external id. -/
def c4provM : List Char → Option Int → List RemoteResult :=
  fun _ _ => [⟨none, some ['Y'], none, none, none, none, none, none, false⟩]

/-- TV-side provider oracle of the C4 counterexample: one result with
external id 5. -/
def c4provT : List Char → Option Int → List RemoteResult :=
  fun _ _ => [⟨some 5, none, none, some ['Y'], none, none, none, none, false⟩]

/-- Extracted title of the C4 counterexample. -/
def c4ext : ExtractedTitle := ⟨1, 1, ['Y'], some ['Y'], none⟩

/-- Counterexample to C4 as stated: the catalog is empty, the provider
returns one movie result and one show result, but the movie result has no
external id, so the matcher produces no movie match, the single produced
match is not ambiguous, and no movie catalog entry appears. -/
theorem C4_counterexample :
    c4provM (matcherTitle c4ext) c4ext.year ≠ [] ∧
    c4provT (matcherTitle c4ext) c4ext.year ≠ [] ∧
    (find_matches_for_extracted_title c4provM c4provT ⟨[], [], 1, 1⟩ c4ext).matches'.map
        (fun m => (m.media_type, m.is_ambiguous)) = [(.tv, false)] ∧
    (find_matches_for_extracted_title c4provM c4provT ⟨[], [], 1, 1⟩ c4ext).catalog.movies
        = [] := by
  refine ⟨by decide, by decide, ?_, by decide⟩
  rfl

/-- C4, amended: when the catalog has no case-insensitive title match and
the first three provider results of each kind include at least one result
with a truthy external id, the matcher returns at least one movie and one
TV match, marks every match ambiguous, and the catalog afterwards holds an
entry keyed by each returned match's external id. -/
theorem C4_remote_both_kinds_amended
    (provM provT : List Char → Option Int → List RemoteResult)
    (cat : Catalog) (ext : ExtractedTitle)
    (ht : matcherTitle ext ≠ [])
    (hm0 : cat.movies.filter (fun m => lowerEq m.title (matcherTitle ext)) = [])
    (hs0 : cat.shows.filter (fun s => lowerEq s.name (matcherTitle ext)) = [])
    (hm : ∃ r ∈ (provM (matcherTitle ext) ext.year).take 3, truthyN r.id = true)
    (hs : ∃ r ∈ (provT (matcherTitle ext) ext.year).take 3, truthyN r.id = true) :
    (∃ m ∈ (find_matches_for_extracted_title provM provT cat ext).matches',
      m.media_type = .movie) ∧
    (∃ m ∈ (find_matches_for_extracted_title provM provT cat ext).matches',
      m.media_type = .tv) ∧
    (∀ m ∈ (find_matches_for_extracted_title provM provT cat ext).matches',
      m.is_ambiguous = true) ∧
    (∀ m ∈ (find_matches_for_extracted_title provM provT cat ext).matches',
      (m.media_type = .movie →
        ∃ row ∈ (find_matches_for_extracted_title provM provT cat ext).catalog.movies,
          some row.tmdb_id = m.tmdb_id) ∧
      (m.media_type = .tv →
        ∃ row ∈ (find_matches_for_extracted_title provM provT cat ext).catalog.shows,
          some row.tmdb_id = m.tmdb_id)) := by
  have hl : localMatchList cat ext = [] := by
    unfold localMatchList localMovies localShows
    rw [show cat.movies.filter (movieFilter (matcherTitle ext) (matcherYearFilter ext)) = []
        from filter_and_eq_nil hm0]
    rw [show cat.shows.filter (showFilter (matcherTitle ext) (matcherYearFilter ext)) = []
        from filter_and_eq_nil hs0]
    rfl
  rw [find_matches_remote ht hl, remoteOutcome_parts]
  obtain ⟨mshows, _, _, mfields⟩ :=
    movieLoop_main ext ((provM (matcherTitle ext) ext.year).take 3) cat 0
  obtain ⟨smovies, _, _, sfields⟩ :=
    showLoop_main ext ((provT (matcherTitle ext) ext.year).take 3)
      (movieLoop ext cat 0 ((provM (matcherTitle ext) ext.year).take 3)).1 0
  have hmm : (movieLoop ext cat 0 ((provM (matcherTitle ext) ext.year).take 3)).2 ≠ [] :=
    movieLoop_ne_nil ext _ cat 0 hm
  have htm : (showLoop ext (movieLoop ext cat 0 ((provM (matcherTitle ext) ext.year).take 3)).1
      0 ((provT (matcherTitle ext) ext.year).take 3)).2 ≠ [] :=
    showLoop_ne_nil ext _ _ 0 hs
  have hlong : 1 <
      ((movieLoop ext cat 0 ((provM (matcherTitle ext) ext.year).take 3)).2
        ++ (showLoop ext (movieLoop ext cat 0 ((provM (matcherTitle ext) ext.year).take 3)).1
              0 ((provT (matcherTitle ext) ext.year).take 3)).2).length := by
    rw [List.length_append]
    have h1 := List.length_pos.mpr hmm
    have h2 := List.length_pos.mpr htm
    omega
  refine ⟨?_, ?_, ?_, ?_⟩
  · obtain ⟨m0, hm0'⟩ := List.exists_mem_of_ne_nil _ hmm
    obtain ⟨m', hmem', e1, _, _⟩ :=
      markAmbiguous_mem_of (List.mem_append.mpr (Or.inl hm0'))
    exact ⟨m', hmem', by rw [e1]; exact (mfields m0 hm0').1⟩
  · obtain ⟨t0, ht0'⟩ := List.exists_mem_of_ne_nil _ htm
    obtain ⟨m', hmem', e1, _, _⟩ :=
      markAmbiguous_mem_of (List.mem_append.mpr (Or.inr ht0'))
    exact ⟨m', hmem', by rw [e1]; exact (sfields t0 ht0').1⟩
  · intro m hmem
    exact markAmbiguous_all_of_long hlong m hmem
  · intro m hmem
    obtain ⟨m0, hm0', e1, e2, _, _, _, _⟩ := mem_markAmbiguous hmem
    rcases List.mem_append.mp hm0' with h1 | h1
    · obtain ⟨f1, _, _, _, _, row, hrow, _, g2, _⟩ := mfields m0 h1
      constructor
      · intro _
        refine ⟨row, ?_, by rw [e2, g2]⟩
        show row ∈ (showLoop ext (movieLoop ext cat 0
            ((provM (matcherTitle ext) ext.year).take 3)).1 0
            ((provT (matcherTitle ext) ext.year).take 3)).1.movies
        rw [smovies]
        exact hrow
      · intro hk
        rw [e1, f1] at hk
        cases hk
    · obtain ⟨f1, _, _, _, _, row, hrow, _, g2, _⟩ := sfields m0 h1
      constructor
      · intro hk
        rw [e1, f1] at hk
        cases hk
      · intro _
        exact ⟨row, hrow, by rw [e2, g2]⟩

/-- Witness provider oracles for the amended C4: both kinds return a
result with a truthy id. -/
def c4wprovM : List Char → Option Int → List RemoteResult :=
  fun _ _ => [⟨some 7, some ['Z'], none, none, none, none, none, none, false⟩]

/-- TV-side witness oracle for the amended C4. -/
def c4wprovT : List Char → Option Int → List RemoteResult :=
  fun _ _ => [⟨some 9, none, none, some ['Z'], none, none, none, none, false⟩]

/-- Witness extracted title for the amended C4. -/
def c4wext : ExtractedTitle := ⟨1, 1, ['Z'], some ['Z'], none⟩

theorem C4_remote_both_kinds_amended_witness :
    (⟨1, .movie, some 7, some 1, 0.9, some .tmdb_search, true⟩ : TitleMatch).is_ambiguous
      = true :=
  (C4_remote_both_kinds_amended c4wprovM c4wprovT ⟨[], [], 1, 1⟩ c4wext
    (by decide) (by decide) (by decide) (by decide) (by decide)).2.2.1 _ (by
      have h : (find_matches_for_extracted_title c4wprovM c4wprovT
          ⟨[], [], 1, 1⟩ c4wext).matches'
          = [⟨1, .movie, some 7, some 1, 0.9, some .tmdb_search, true⟩,
             ⟨1, .tv, some 9, some 1, 0.9, some .tmdb_search, true⟩] := rfl
      rw [h]
      exact List.mem_cons_self _ _)

/-- The year stored on the movie row keyed by `tid` before an upsert
(`none` when the row does not exist yet). -/
def priorMovieYear (cat : Catalog) (tid : Nat) : Option Int :=
  match cat.movies.find? (fun m => m.tmdb_id = tid) with
  | some m => m.year
  | none => none

/-- The first-air year stored on the show row keyed by `tid` before an
upsert. -/
def priorShowYear (cat : Catalog) (tid : Nat) : Option Int :=
  match cat.shows.find? (fun s => s.tmdb_id = tid) with
  | some s => s.first_air_year
  | none => none

/-- The title stored on the movie row keyed by `tid` before an upsert
(the empty string of a fresh row when it does not exist yet). -/
def priorMovieTitle (cat : Catalog) (tid : Nat) : List Char :=
  match cat.movies.find? (fun m => m.tmdb_id = tid) with
  | some m => m.title
  | none => []

/-- The original title stored on the movie row keyed by `tid` before an
upsert. -/
def priorMovieOrigTitle (cat : Catalog) (tid : Nat) : Option (List Char) :=
  match cat.movies.find? (fun m => m.tmdb_id = tid) with
  | some m => m.original_title
  | none => none

/-- The popularity stored on the movie row keyed by `tid` before an
upsert. -/
def priorMoviePop (cat : Catalog) (tid : Nat) : Option ℚ :=
  match cat.movies.find? (fun m => m.tmdb_id = tid) with
  | some m => m.popularity
  | none => none

/-- The name stored on the show row keyed by `tid` before an upsert. -/
def priorShowName (cat : Catalog) (tid : Nat) : List Char :=
  match cat.shows.find? (fun s => s.tmdb_id = tid) with
  | some s => s.name
  | none => []

/-- The original name stored on the show row keyed by `tid` before an
upsert. -/
def priorShowOrigName (cat : Catalog) (tid : Nat) : Option (List Char) :=
  match cat.shows.find? (fun s => s.tmdb_id = tid) with
  | some s => s.original_name
  | none => none

/-- The popularity stored on the show row keyed by `tid` before an
upsert. -/
def priorShowPop (cat : Catalog) (tid : Nat) : Option ℚ :=
  match cat.shows.find? (fun s => s.tmdb_id = tid) with
  | some s => s.popularity
  | none => none

theorem refreshMovie_adult (m : Movie) (r : RemoteResult) :
    (refreshMovie m r).adult = r.adult := rfl

theorem refreshShow_adult (s : TVShow) (r : RemoteResult) :
    (refreshShow s r).adult = r.adult := rfl

theorem refreshMovie_title (m : Movie) (r : RemoteResult) :
    (refreshMovie m r).title
      = (pyOrS r.title (pyOrS r.original_title (pyOrS (some m.title) (some [])))).getD [] := rfl

theorem refreshMovie_orig (m : Movie) (r : RemoteResult) :
    (refreshMovie m r).original_title = pyOrS r.original_title m.original_title := rfl

theorem refreshMovie_pop (m : Movie) (r : RemoteResult) :
    (refreshMovie m r).popularity = pyOrQ r.popularity m.popularity := rfl

theorem refreshShow_name (s : TVShow) (r : RemoteResult) :
    (refreshShow s r).name
      = (pyOrS r.name (pyOrS r.original_name (pyOrS (some s.name) (some [])))).getD [] := rfl

theorem refreshShow_orig (s : TVShow) (r : RemoteResult) :
    (refreshShow s r).original_name = pyOrS r.original_name s.original_name := rfl

theorem refreshShow_pop (s : TVShow) (r : RemoteResult) :
    (refreshShow s r).popularity = pyOrQ r.popularity s.popularity := rfl

theorem refreshMovie_year_date {m : Movie} {r : RemoteResult} {rd : List Char}
    (h : r.release_date = some rd) (hne : rd ≠ []) :
    (refreshMovie m r).year =
      match pyInt (rd.take 4) with
      | some n => some n
      | none => m.year := by
  simp [refreshMovie, truthyS, h, hne]

theorem refreshMovie_year_nodate {m : Movie} {r : RemoteResult}
    (h : r.release_date = none ∨ r.release_date = some []) :
    (refreshMovie m r).year = m.year := by
  rcases h with h | h <;> simp [refreshMovie, truthyS, h]

theorem refreshShow_year_date {s : TVShow} {r : RemoteResult} {rd : List Char}
    (h : r.first_air_date = some rd) (hne : rd ≠ []) :
    (refreshShow s r).first_air_year =
      match pyInt (rd.take 4) with
      | some n => some n
      | none => s.first_air_year := by
  simp [refreshShow, truthyS, h, hne]

theorem refreshShow_year_nodate {s : TVShow} {r : RemoteResult}
    (h : r.first_air_date = none ∨ r.first_air_date = some []) :
    (refreshShow s r).first_air_year = s.first_air_year := by
  rcases h with h | h <;> simp [refreshShow, truthyS, h]

theorem upsertMovie_refresh {cat : Catalog} {r : RemoteResult} {cat' : Catalog} {mv : Movie}
    {tid : Nat} (hid : r.id = some tid) (h : upsertMovie cat r = some (cat', mv)) :
    ∃ base : Movie, mv = refreshMovie base r ∧ base.year = priorMovieYear cat tid ∧
      base.title = priorMovieTitle cat tid ∧
      base.original_title = priorMovieOrigTitle cat tid ∧
      base.popularity = priorMoviePop cat tid := by
  simp only [upsertMovie, hid] at h
  by_cases h0 : tid = 0
  · rw [if_pos h0] at h; cases h
  · rw [if_neg h0] at h
    cases hfind : cat.movies.find? (fun m => m.tmdb_id = tid) with
    | some m =>
      rw [hfind] at h
      simp only [] at h
      have h2 := Option.some.inj h
      exact ⟨m, (congrArg Prod.snd h2).symm, by simp [priorMovieYear, hfind],
        by simp [priorMovieTitle, hfind], by simp [priorMovieOrigTitle, hfind],
        by simp [priorMoviePop, hfind]⟩
    | none =>
      rw [hfind] at h
      simp only [] at h
      have h2 := Option.some.inj h
      exact ⟨⟨cat.nextMovieId, tid, [], none, none, none, false⟩,
        (congrArg Prod.snd h2).symm, by simp [priorMovieYear, hfind],
        by simp [priorMovieTitle, hfind], by simp [priorMovieOrigTitle, hfind],
        by simp [priorMoviePop, hfind]⟩

theorem upsertShow_refresh {cat : Catalog} {r : RemoteResult} {cat' : Catalog} {sh : TVShow}
    {tid : Nat} (hid : r.id = some tid) (h : upsertShow cat r = some (cat', sh)) :
    ∃ base : TVShow, sh = refreshShow base r ∧ base.first_air_year = priorShowYear cat tid ∧
      base.name = priorShowName cat tid ∧
      base.original_name = priorShowOrigName cat tid ∧
      base.popularity = priorShowPop cat tid := by
  simp only [upsertShow, hid] at h
  by_cases h0 : tid = 0
  · rw [if_pos h0] at h; cases h
  · rw [if_neg h0] at h
    cases hfind : cat.shows.find? (fun s => s.tmdb_id = tid) with
    | some s =>
      rw [hfind] at h
      simp only [] at h
      have h2 := Option.some.inj h
      exact ⟨s, (congrArg Prod.snd h2).symm, by simp [priorShowYear, hfind],
        by simp [priorShowName, hfind], by simp [priorShowOrigName, hfind],
        by simp [priorShowPop, hfind]⟩
    | none =>
      rw [hfind] at h
      simp only [] at h
      have h2 := Option.some.inj h
      exact ⟨⟨cat.nextShowId, tid, [], none, none, none, false⟩,
        (congrArg Prod.snd h2).symm, by simp [priorShowYear, hfind],
        by simp [priorShowName, hfind], by simp [priorShowOrigName, hfind],
        by simp [priorShowPop, hfind]⟩

/-- Movie-side provider oracle of the C6 counterexample: the first result
has no external id, the second has id 7. -/
def c6provM : List Char → Option Int → List RemoteResult :=
  fun _ _ => [⟨none, some ['W'], none, none, none, none, none, none, false⟩,
    ⟨some 7, some ['W'], none, none, none, none, none, none, false⟩]

/-- TV-side provider oracle of the C6 counterexample: no results. -/
def c6provT : List Char → Option Int → List RemoteResult := fun _ _ => []

/-- Extracted title of the C6 counterexample. -/
def c6ext : ExtractedTitle := ⟨1, 1, ['W'], some ['W'], none⟩

/-- Counterexample to C6 as stated: the provider's first movie result is
skipped (no external id), so although the matcher does produce a movie
match, that match gets confidence 0.75 (its enumerate index is 1) and no
match of the kind carries the claimed 0.9 confidence of the first result;
likewise the first processed result upserts no catalog entry. -/
theorem C6_counterexample :
    (c6provM (matcherTitle c6ext) c6ext.year).length = 2 ∧
    (find_matches_for_extracted_title c6provM c6provT ⟨[], [], 1, 1⟩ c6ext).matches'.map
        TitleMatch.confidence = [0.75] ∧
    (find_matches_for_extracted_title c6provM c6provT ⟨[], [], 1, 1⟩ c6ext).catalog.movies.map
        Movie.tmdb_id = [7] := by
  refine ⟨by decide, ?_, by decide⟩
  rfl

/-- C6, amended: in the remote-fallback branch at most 3 provider results
per kind are processed in provider order; a result with a falsy external
id is skipped — every returned match and every catalog row after the run
originates from a truthy-id result of the first three (or, for rows, from
a pre-existing row); each processed truthy-id result upserts a catalog
entry keyed by its external id; the match built from a result at provider
position 0 gets confidence 0.9 and matches from later positions get 0.75,
all with method tmdb_search; the upserted row refreshes its title (the
provider title, else the provider original title, else the prior title,
else empty), its original title (the provider original title, else the
prior one), its popularity (the provider popularity when truthy, else the
prior one), its adult flag, and takes its year from the first 4 characters
of the provider's date field, a malformed or missing date leaving the
prior value. -/
theorem C6_remote_fallback_amended
    (provM provT : List Char → Option Int → List RemoteResult)
    (cat : Catalog) (ext : ExtractedTitle)
    (ht : matcherTitle ext ≠ []) (hl : localMatchList cat ext = []) :
    (((find_matches_for_extracted_title provM provT cat ext).matches'.filter
        (fun m => decide (m.media_type = MediaType.movie))).map TitleMatch.confidence
      = confSpec 0 ((provM (matcherTitle ext) ext.year).take 3)) ∧
    (((find_matches_for_extracted_title provM provT cat ext).matches'.filter
        (fun m => decide (m.media_type = MediaType.tv))).map TitleMatch.confidence
      = confSpec 0 ((provT (matcherTitle ext) ext.year).take 3)) ∧
    (∀ m ∈ (find_matches_for_extracted_title provM provT cat ext).matches',
      m.match_method = some .tmdb_search) ∧
    (∀ r ∈ (provM (matcherTitle ext) ext.year).take 3, truthyN r.id = true →
      ∃ row ∈ (find_matches_for_extracted_title provM provT cat ext).catalog.movies,
        r.id = some row.tmdb_id) ∧
    (∀ r ∈ (provT (matcherTitle ext) ext.year).take 3, truthyN r.id = true →
      ∃ row ∈ (find_matches_for_extracted_title provM provT cat ext).catalog.shows,
        r.id = some row.tmdb_id) ∧
    (∀ (c0 : Catalog) (r : RemoteResult) (tid : Nat) (c1 : Catalog) (mv : Movie),
      r.id = some tid → upsertMovie c0 r = some (c1, mv) →
      mv.adult = r.adult ∧
      mv.title = (pyOrS r.title (pyOrS r.original_title
        (pyOrS (some (priorMovieTitle c0 tid)) (some [])))).getD [] ∧
      mv.original_title = pyOrS r.original_title (priorMovieOrigTitle c0 tid) ∧
      mv.popularity = pyOrQ r.popularity (priorMoviePop c0 tid) ∧
      (∀ rd, r.release_date = some rd → rd ≠ [] →
        mv.year = (match pyInt (rd.take 4) with
                   | some n => some n
                   | none => priorMovieYear c0 tid)) ∧
      ((r.release_date = none ∨ r.release_date = some []) →
        mv.year = priorMovieYear c0 tid)) ∧
    (∀ (c0 : Catalog) (r : RemoteResult) (tid : Nat) (c1 : Catalog) (sh : TVShow),
      r.id = some tid → upsertShow c0 r = some (c1, sh) →
      sh.adult = r.adult ∧
      sh.name = (pyOrS r.name (pyOrS r.original_name
        (pyOrS (some (priorShowName c0 tid)) (some [])))).getD [] ∧
      sh.original_name = pyOrS r.original_name (priorShowOrigName c0 tid) ∧
      sh.popularity = pyOrQ r.popularity (priorShowPop c0 tid) ∧
      (∀ rd, r.first_air_date = some rd → rd ≠ [] →
        sh.first_air_year = (match pyInt (rd.take 4) with
                             | some n => some n
                             | none => priorShowYear c0 tid)) ∧
      ((r.first_air_date = none ∨ r.first_air_date = some []) →
        sh.first_air_year = priorShowYear c0 tid)) ∧
    (∀ row ∈ (find_matches_for_extracted_title provM provT cat ext).catalog.movies,
      (∃ old ∈ cat.movies, old.tmdb_id = row.tmdb_id) ∨
      (∃ r ∈ (provM (matcherTitle ext) ext.year).take 3,
        r.id = some row.tmdb_id ∧ row.tmdb_id ≠ 0)) ∧
    (∀ row ∈ (find_matches_for_extracted_title provM provT cat ext).catalog.shows,
      (∃ old ∈ cat.shows, old.tmdb_id = row.tmdb_id) ∨
      (∃ r ∈ (provT (matcherTitle ext) ext.year).take 3,
        r.id = some row.tmdb_id ∧ row.tmdb_id ≠ 0)) ∧
    (∀ m ∈ (find_matches_for_extracted_title provM provT cat ext).matches',
      m.media_type = .movie →
      ∃ r ∈ (provM (matcherTitle ext) ext.year).take 3,
        truthyN r.id = true ∧ r.id = m.tmdb_id) ∧
    (∀ m ∈ (find_matches_for_extracted_title provM provT cat ext).matches',
      m.media_type = .tv →
      ∃ r ∈ (provT (matcherTitle ext) ext.year).take 3,
        truthyN r.id = true ∧ r.id = m.tmdb_id) := by
  rw [find_matches_remote ht hl, remoteOutcome_parts]
  obtain ⟨smovies, _, _, sfields⟩ :=
    showLoop_main ext ((provT (matcherTitle ext) ext.year).take 3)
      (movieLoop ext cat 0 ((provM (matcherTitle ext) ext.year).take 3)).1 0
  obtain ⟨mshows, _, _, mfields⟩ :=
    movieLoop_main ext ((provM (matcherTitle ext) ext.year).take 3) cat 0
  refine ⟨?_, ?_, ?_, ?_, ?_, ?_, ?_, ?_, ?_, ?_, ?_⟩
  · show (((markAmbiguous _).filter _).map TitleMatch.confidence) = _
    rw [markAmbiguous_filter_conf, List.filter_append]
    rw [List.filter_eq_self.mpr fun m hm => by
      simpa using (mfields m hm).1]
    rw [List.filter_eq_nil_iff.mpr fun m hm => by
      simp [(sfields m hm).1]]
    rw [List.append_nil]
    exact movieLoop_conf ext _ cat 0
  · show (((markAmbiguous _).filter _).map TitleMatch.confidence) = _
    rw [markAmbiguous_filter_conf, List.filter_append]
    rw [List.filter_eq_nil_iff.mpr fun m hm => by
      simp [(mfields m hm).1]]
    rw [List.filter_eq_self.mpr fun m hm => by
      simpa using (sfields m hm).1]
    rw [List.nil_append]
    exact showLoop_conf ext _ _ 0
  · intro m hm
    obtain ⟨m0, hm0, _, _, _, _, e5, _⟩ := mem_markAmbiguous hm
    rcases List.mem_append.mp hm0 with h1 | h1
    · rw [e5]; exact (mfields m0 h1).2.1
    · rw [e5]; exact (sfields m0 h1).2.1
  · intro r hr htr
    obtain ⟨row, hrow, he⟩ := movieLoop_entry ext _ cat 0 r hr htr
    refine ⟨row, ?_, he⟩
    show row ∈ (showLoop ext (movieLoop ext cat 0
        ((provM (matcherTitle ext) ext.year).take 3)).1 0
        ((provT (matcherTitle ext) ext.year).take 3)).1.movies
    rw [smovies]
    exact hrow
  · intro r hr htr
    exact showLoop_entry ext _ _ 0 r hr htr
  · intro c0 r tid c1 mv hid hup
    obtain ⟨base, hbase, hyear, htitle, horig, hpop⟩ := upsertMovie_refresh hid hup
    refine ⟨by rw [hbase, refreshMovie_adult],
      by rw [hbase, refreshMovie_title, htitle],
      by rw [hbase, refreshMovie_orig, horig],
      by rw [hbase, refreshMovie_pop, hpop], ?_, ?_⟩
    · intro rd hrd hne
      rw [hbase, refreshMovie_year_date hrd hne, ← hyear]
    · intro hno
      rw [hbase, refreshMovie_year_nodate hno, hyear]
  · intro c0 r tid c1 sh hid hup
    obtain ⟨base, hbase, hyear, hname, horig, hpop⟩ := upsertShow_refresh hid hup
    refine ⟨by rw [hbase, refreshShow_adult],
      by rw [hbase, refreshShow_name, hname],
      by rw [hbase, refreshShow_orig, horig],
      by rw [hbase, refreshShow_pop, hpop], ?_, ?_⟩
    · intro rd hrd hne
      rw [hbase, refreshShow_year_date hrd hne, ← hyear]
    · intro hno
      rw [hbase, refreshShow_year_nodate hno, hyear]
  · intro row hrow
    have hrow' : row ∈ (movieLoop ext cat 0
        ((provM (matcherTitle ext) ext.year).take 3)).1.movies := by
      rw [← smovies]
      exact hrow
    exact movieLoop_origin ext _ cat 0 row hrow'
  · intro row hrow
    rcases showLoop_origin ext _ _ 0 row hrow with ⟨old, hold, he⟩ | h2
    · left
      refine ⟨old, ?_, he⟩
      rw [← mshows]
      exact hold
    · exact Or.inr h2
  · intro m hm hk
    obtain ⟨m0, hm0, e1, e2, _, _, _, _⟩ := mem_markAmbiguous hm
    rcases List.mem_append.mp hm0 with h1 | h1
    · obtain ⟨r, hr, htr, hre⟩ := movieLoop_match_origin ext _ cat 0 m0 h1
      exact ⟨r, hr, htr, by rw [e2]; exact hre⟩
    · rw [e1, (sfields m0 h1).1] at hk
      cases hk
  · intro m hm hk
    obtain ⟨m0, hm0, e1, e2, _, _, _, _⟩ := mem_markAmbiguous hm
    rcases List.mem_append.mp hm0 with h1 | h1
    · rw [e1, (mfields m0 h1).1] at hk
      cases hk
    · obtain ⟨r, hr, htr, hre⟩ := showLoop_match_origin ext _ _ 0 m0 h1
      exact ⟨r, hr, htr, by rw [e2]; exact hre⟩

/-- Witness provider oracle (movies) for the amended C6: two results, the
first with a falsy id. -/
def c6wprovM : List Char → Option Int → List RemoteResult :=
  fun _ _ => [⟨some 0, some ['V'], none, none, none, none, none, none, false⟩,
    ⟨some 8, some ['V'], none, none, none, some ['2', '0', '0', '1'], none, none, false⟩]

/-- Witness provider oracle (TV) for the amended C6. -/
def c6wprovT : List Char → Option Int → List RemoteResult :=
  fun _ _ => [⟨some 4, none, none, some ['V'], none, none, none, none, false⟩]

/-- Witness extracted title for the amended C6. -/
def c6wext : ExtractedTitle := ⟨1, 1, ['V'], some ['V'], none⟩

theorem C6_remote_fallback_amended_witness :
    ((find_matches_for_extracted_title c6wprovM c6wprovT ⟨[], [], 1, 1⟩ c6wext).matches'.filter
        (fun m => decide (m.media_type = MediaType.movie))).map TitleMatch.confidence
      = confSpec 0 ((c6wprovM (matcherTitle c6wext) c6wext.year).take 3) :=
  (C6_remote_fallback_amended c6wprovM c6wprovT ⟨[], [], 1, 1⟩ c6wext
    (by decide) (by decide)).1

/-- C10: every TitleMatch the matcher returns carries a non-null external
id and a non-null local reference to an existing catalog row of its kind;
remote matches never reference a falsy external id; and every catalog row
after the run either descends from a pre-existing row (same external id)
or was created from a first-three provider result with a truthy external
id — falsy-id results create neither matches nor rows. -/
theorem C10_match_references
    (provM provT : List Char → Option Int → List RemoteResult)
    (cat : Catalog) (ext : ExtractedTitle) :
    (∀ m ∈ (find_matches_for_extracted_title provM provT cat ext).matches',
      m.tmdb_id ≠ none ∧ m.local_id ≠ none ∧
      (m.media_type = .movie →
        ∃ row ∈ (find_matches_for_extracted_title provM provT cat ext).catalog.movies,
          some row.id = m.local_id ∧ some row.tmdb_id = m.tmdb_id) ∧
      (m.media_type = .tv →
        ∃ row ∈ (find_matches_for_extracted_title provM provT cat ext).catalog.shows,
          some row.id = m.local_id ∧ some row.tmdb_id = m.tmdb_id) ∧
      (m.match_method = some .tmdb_search → m.tmdb_id ≠ some 0)) ∧
    (∀ row ∈ (find_matches_for_extracted_title provM provT cat ext).catalog.movies,
      (∃ old ∈ cat.movies, old.tmdb_id = row.tmdb_id) ∨
      (∃ r ∈ (provM (matcherTitle ext) ext.year).take 3,
        r.id = some row.tmdb_id ∧ row.tmdb_id ≠ 0)) ∧
    (∀ row ∈ (find_matches_for_extracted_title provM provT cat ext).catalog.shows,
      (∃ old ∈ cat.shows, old.tmdb_id = row.tmdb_id) ∨
      (∃ r ∈ (provT (matcherTitle ext) ext.year).take 3,
        r.id = some row.tmdb_id ∧ row.tmdb_id ≠ 0)) := by
  by_cases ht : matcherTitle ext = []
  · rw [find_matches_empty ht]
    refine ⟨?_, ?_, ?_⟩
    · intro m hm; simp at hm
    · intro row hrow; exact Or.inl ⟨row, hrow, rfl⟩
    · intro row hrow; exact Or.inl ⟨row, hrow, rfl⟩
  · by_cases hl : localMatchList cat ext = []
    · rw [find_matches_remote ht hl, remoteOutcome_parts]
      obtain ⟨smovies, _, _, sfields⟩ :=
        showLoop_main ext ((provT (matcherTitle ext) ext.year).take 3)
          (movieLoop ext cat 0 ((provM (matcherTitle ext) ext.year).take 3)).1 0
      obtain ⟨mshows, _, _, mfields⟩ :=
        movieLoop_main ext ((provM (matcherTitle ext) ext.year).take 3) cat 0
      refine ⟨?_, ?_, ?_⟩
      · intro m hm
        obtain ⟨m0, hm0, e1, e2, e3, _, e5, _⟩ := mem_markAmbiguous hm
        rcases List.mem_append.mp hm0 with h1 | h1
        · obtain ⟨f1, f2, _, _, _, row, hrow, g1, g2, g3⟩ := mfields m0 h1
          refine ⟨by rw [e2, ← g2]; simp, by rw [e3, ← g1]; simp, ?_, ?_, ?_⟩
          · intro _
            refine ⟨row, ?_, by rw [e3, g1], by rw [e2, g2]⟩
            show row ∈ (showLoop ext (movieLoop ext cat 0
                ((provM (matcherTitle ext) ext.year).take 3)).1 0
                ((provT (matcherTitle ext) ext.year).take 3)).1.movies
            rw [smovies]
            exact hrow
          · intro hk
            rw [e1, f1] at hk
            cases hk
          · intro _
            rw [e2, ← g2]
            intro heq
            exact g3 (Option.some.inj heq)
        · obtain ⟨f1, f2, _, _, _, row, hrow, g1, g2, g3⟩ := sfields m0 h1
          refine ⟨by rw [e2, ← g2]; simp, by rw [e3, ← g1]; simp, ?_, ?_, ?_⟩
          · intro hk
            rw [e1, f1] at hk
            cases hk
          · intro _
            exact ⟨row, hrow, by rw [e3, g1], by rw [e2, g2]⟩
          · intro _
            rw [e2, ← g2]
            intro heq
            exact g3 (Option.some.inj heq)
      · intro row hrow
        have hrow' : row ∈ (movieLoop ext cat 0
            ((provM (matcherTitle ext) ext.year).take 3)).1.movies := by
          rw [← smovies]
          exact hrow
        exact movieLoop_origin ext _ cat 0 row hrow'
      · intro row hrow
        rcases showLoop_origin ext _ _ 0 row hrow with ⟨old, hold, he⟩ | h2
        · left
          refine ⟨old, ?_, he⟩
          rw [← mshows]
          exact hold
        · exact Or.inr h2
    · rw [find_matches_local ht hl]
      refine ⟨?_, ?_, ?_⟩
      · intro m hm
        have hm' : m ∈ markAmbiguous (localMatchList cat ext) := hm
        obtain ⟨m0, hm0, e1, e2, e3, _, e5, _⟩ := mem_markAmbiguous hm'
        obtain ⟨_, _, f3, _, f5, f6, f7, f8⟩ := localMatchList_fields cat ext m0 hm0
        refine ⟨by rw [e2]; exact f5, by rw [e3]; exact f6, ?_, ?_, ?_⟩
        · intro hk
          rw [e1] at hk
          obtain ⟨row, hrow, g1, g2⟩ := f7 hk
          exact ⟨row, hrow, by rw [e3, g1], by rw [e2, g2]⟩
        · intro hk
          rw [e1] at hk
          obtain ⟨row, hrow, g1, g2⟩ := f8 hk
          exact ⟨row, hrow, by rw [e3, g1], by rw [e2, g2]⟩
        · intro hk
          rw [e5, f3] at hk
          cases Option.some.inj hk
      · intro row hrow
        exact Or.inl ⟨row, hrow, rfl⟩
      · intro row hrow
        exact Or.inl ⟨row, hrow, rfl⟩

/-- Witness catalog reference for C10: the single returned match of a
concrete remote run references the created catalog row. -/
def c10provM : List Char → Option Int → List RemoteResult :=
  fun _ _ => [⟨some 12, some ['Q'], none, none, none, none, none, none, false⟩]

/-- TV-side witness oracle for C10: no results. -/
def c10provT : List Char → Option Int → List RemoteResult := fun _ _ => []

/-- Witness extracted title for C10. -/
def c10ext : ExtractedTitle := ⟨1, 1, ['Q'], some ['Q'], none⟩

theorem C10_match_references_witness :
    (⟨1, .movie, some 12, some 1, 0.9, some .tmdb_search, false⟩ : TitleMatch).tmdb_id
      ≠ none :=
  ((C10_match_references c10provM c10provT ⟨[], [], 1, 1⟩ c10ext).1 _ (by
    have h : (find_matches_for_extracted_title c10provM c10provT
        ⟨[], [], 1, 1⟩ c10ext).matches'
        = [⟨1, .movie, some 12, some 1, 0.9, some .tmdb_search, false⟩] := rfl
    rw [h]
    exact List.mem_singleton_self _)).1

/-! The import job runner of `tasks/import_tasks.py`. The notification
channel (`socketio.emit` wrapped in try/except) is modelled by a delivery
oracle: a failed delivery appends no event and, per the except-pass, has
no other effect. -/

/-- `ImportSession.status` values. -/
inductive SessionStatus where
  | pending
  | processing
  | completed
  | failed
deriving DecidableEq

/-- The `ImportSession` row fields the job runner touches. -/
structure SessionRow where
  id : Nat
  status : SessionStatus
  total_titles : Nat
  matched_count : Nat
  unmatched_count : Nat
deriving DecidableEq

/-- One `import_progress` event payload. -/
structure Progress where
  processed : Nat
  total : Nat
  matched : Nat
deriving DecidableEq

/-- The state the job runner reads and writes: the catalog, the session
row, the created rows, the primary-key counter and the delivered events. -/
structure JobState where
  catalog : Catalog
  session : SessionRow
  extractedRows : List ExtractedTitle
  matchRows : List TitleMatch
  nextExtractedId : Nat
  events : List Progress
deriving DecidableEq

/-- The per-session projection of the state that the notification channel
cannot influence (everything but the event log). -/
def JobState.core (st : JobState) :
    Catalog × SessionRow × List ExtractedTitle × List TitleMatch × Nat :=
  (st.catalog, st.session, st.extractedRows, st.matchRows, st.nextExtractedId)

/-- The ExtractedTitle rows the loop creates: one per record, in order,
with consecutive ids. -/
def buildRows (nid sid : Nat) : List ExtractedTitleRecord → List ExtractedTitle
  | [] => []
  | r :: rs => ⟨nid, sid, r.raw_text, r.normalized_title, r.year⟩ :: buildRows (nid + 1) sid rs

/-- The ExtractedTitle row one loop iteration creates. -/
def loopExt (recd : ExtractedTitleRecord) (st : JobState) : ExtractedTitle :=
  ⟨st.nextExtractedId, st.session.id, recd.raw_text, recd.normalized_title, recd.year⟩

/-- The matched counter after one iteration: incremented when the matcher
produced any match (`if matches:`). -/
def stepMatched (provM provT : List Char → Option Int → List RemoteResult)
    (recd : ExtractedTitleRecord) (st : JobState) (matched : Nat) : Nat :=
  if (find_matches_for_extracted_title provM provT st.catalog (loopExt recd st)).matches' = []
  then matched else matched + 1

/-- The job state after one iteration: the row and its matches persisted,
the catalog updated by the matcher, and a progress event appended when
delivery succeeds (a failed delivery is swallowed). -/
def stepState (provM provT : List Char → Option Int → List RemoteResult)
    (deliver : Nat → Bool) (total idx matched : Nat)
    (recd : ExtractedTitleRecord) (st : JobState) : JobState :=
  { st with
    catalog := (find_matches_for_extracted_title provM provT st.catalog (loopExt recd st)).catalog
    extractedRows := st.extractedRows ++ [loopExt recd st]
    matchRows := st.matchRows
      ++ (find_matches_for_extracted_title provM provT st.catalog (loopExt recd st)).matches'
    nextExtractedId := st.nextExtractedId + 1
    events :=
      if deliver idx then
        st.events ++ [⟨idx, total, stepMatched provM provT recd st matched⟩]
      else st.events }

/-- The `for idx, rec in enumerate(records, start=1)` loop of
`process_import_file`: create the ExtractedTitle row, run the matcher,
store its matches, bump the matched counter when any match was produced,
and emit a progress event (swallowing delivery failures). -/
def runLoop (provM provT : List Char → Option Int → List RemoteResult)
    (deliver : Nat → Bool) (total : Nat) :
    Nat → Nat → List ExtractedTitleRecord → JobState → Nat × JobState
  | _, matched, [], st => (matched, st)
  | idx, matched, recd :: rest, st =>
    runLoop provM provT deliver total (idx + 1) (stepMatched provM provT recd st matched)
      rest (stepState provM provT deliver total idx matched recd st)

/-- `process_import_file` after extraction: set the session to
`processing`, run the loop over the extraction records, then persist the
counters and `completed`. -/
def process_import_file (provM provT : List Char → Option Int → List RemoteResult)
    (deliver : Nat → Bool) (records : List ExtractedTitleRecord) (st0 : JobState) : JobState :=
  let st1 := { st0 with session := { st0.session with status := SessionStatus.processing } }
  let res := runLoop provM provT deliver records.length 1 0 records st1
  { res.2 with
    session :=
      { res.2.session with
        total_titles := records.length
        matched_count := res.1
        unmatched_count := records.length - res.1
        status := SessionStatus.completed } }

theorem stepMatched_le (provM provT : List Char → Option Int → List RemoteResult)
    (recd : ExtractedTitleRecord) (st : JobState) (matched : Nat) :
    stepMatched provM provT recd st matched ≤ matched + 1 := by
  unfold stepMatched
  by_cases hm : (find_matches_for_extracted_title provM provT st.catalog
      (loopExt recd st)).matches' = []
  · rw [if_pos hm]; omega
  · rw [if_neg hm]

theorem buildRows_length (sid : Nat) :
    ∀ (rs : List ExtractedTitleRecord) (nid : Nat), (buildRows nid sid rs).length = rs.length := by
  intro rs
  induction rs with
  | nil => intro nid; rfl
  | cons r rest ih =>
    intro nid
    unfold buildRows
    rw [List.length_cons, ih]
    rfl

theorem runLoop_matched_le (provM provT : List Char → Option Int → List RemoteResult)
    (deliver : Nat → Bool) (total : Nat) :
    ∀ (rs : List ExtractedTitleRecord) (idx matched : Nat) (st : JobState),
      (runLoop provM provT deliver total idx matched rs st).1 ≤ matched + rs.length := by
  intro rs
  induction rs with
  | nil => intro idx matched st; simp [runLoop]
  | cons recd rest ih =>
    intro idx matched st
    rw [show runLoop provM provT deliver total idx matched (recd :: rest) st
        = runLoop provM provT deliver total (idx + 1) (stepMatched provM provT recd st matched)
            rest (stepState provM provT deliver total idx matched recd st) from rfl]
    refine le_trans (ih (idx + 1) (stepMatched provM provT recd st matched)
      (stepState provM provT deliver total idx matched recd st)) ?_
    have := stepMatched_le provM provT recd st matched
    simp only [List.length_cons]
    omega

theorem runLoop_rows_session (provM provT : List Char → Option Int → List RemoteResult)
    (deliver : Nat → Bool) (total : Nat) :
    ∀ (rs : List ExtractedTitleRecord) (idx matched : Nat) (st : JobState),
      (runLoop provM provT deliver total idx matched rs st).2.session = st.session ∧
      (runLoop provM provT deliver total idx matched rs st).2.extractedRows
        = st.extractedRows ++ buildRows st.nextExtractedId st.session.id rs := by
  intro rs
  induction rs with
  | nil => intro idx matched st; exact ⟨rfl, by simp [runLoop, buildRows]⟩
  | cons recd rest ih =>
    intro idx matched st
    rw [show runLoop provM provT deliver total idx matched (recd :: rest) st
        = runLoop provM provT deliver total (idx + 1) (stepMatched provM provT recd st matched)
            rest (stepState provM provT deliver total idx matched recd st) from rfl]
    obtain ⟨h1, h2⟩ := ih (idx + 1) (stepMatched provM provT recd st matched)
      (stepState provM provT deliver total idx matched recd st)
    refine ⟨by rw [h1]; rfl, ?_⟩
    rw [h2]
    rw [show (stepState provM provT deliver total idx matched recd st).extractedRows
        = st.extractedRows ++ [loopExt recd st] from rfl]
    rw [show (stepState provM provT deliver total idx matched recd st).nextExtractedId
        = st.nextExtractedId + 1 from rfl]
    rw [show (stepState provM provT deliver total idx matched recd st).session
        = st.session from rfl]
    rw [show buildRows st.nextExtractedId st.session.id (recd :: rest)
        = loopExt recd st :: buildRows (st.nextExtractedId + 1) st.session.id rest from rfl]
    simp [List.append_assoc]

theorem runLoop_core_eq (provM provT : List Char → Option Int → List RemoteResult)
    (d₁ d₂ : Nat → Bool) (total : Nat) :
    ∀ (rs : List ExtractedTitleRecord) (idx matched : Nat) (st₁ st₂ : JobState),
      st₁.core = st₂.core →
      (runLoop provM provT d₁ total idx matched rs st₁).1
        = (runLoop provM provT d₂ total idx matched rs st₂).1 ∧
      (runLoop provM provT d₁ total idx matched rs st₁).2.core
        = (runLoop provM provT d₂ total idx matched rs st₂).2.core := by
  intro rs
  induction rs with
  | nil => intro idx matched st₁ st₂ h; exact ⟨rfl, h⟩
  | cons recd rest ih =>
    intro idx matched st₁ st₂ h
    have hcat : st₁.catalog = st₂.catalog := congrArg Prod.fst h
    have hses : st₁.session = st₂.session := congrArg (Prod.fst ∘ Prod.snd) h
    have hrows : st₁.extractedRows = st₂.extractedRows :=
      congrArg (Prod.fst ∘ Prod.snd ∘ Prod.snd) h
    have hmrows : st₁.matchRows = st₂.matchRows :=
      congrArg (Prod.fst ∘ Prod.snd ∘ Prod.snd ∘ Prod.snd) h
    have hnid : st₁.nextExtractedId = st₂.nextExtractedId :=
      congrArg (Prod.snd ∘ Prod.snd ∘ Prod.snd ∘ Prod.snd) h
    have hext : loopExt recd st₁ = loopExt recd st₂ := by
      unfold loopExt
      rw [hses, hnid]
    have hmatch : stepMatched provM provT recd st₁ matched
        = stepMatched provM provT recd st₂ matched := by
      unfold stepMatched
      rw [hext, hcat]
    rw [show runLoop provM provT d₁ total idx matched (recd :: rest) st₁
        = runLoop provM provT d₁ total (idx + 1) (stepMatched provM provT recd st₁ matched)
            rest (stepState provM provT d₁ total idx matched recd st₁) from rfl]
    rw [show runLoop provM provT d₂ total idx matched (recd :: rest) st₂
        = runLoop provM provT d₂ total (idx + 1) (stepMatched provM provT recd st₂ matched)
            rest (stepState provM provT d₂ total idx matched recd st₂) from rfl]
    rw [← hmatch]
    apply ih
    unfold JobState.core stepState
    simp only [hcat, hses, hrows, hmrows, hnid, hext]

/-- C2: for every run the job runner completes, the persisted counters
satisfy matched + unmatched = total, the total equals the number of
extraction records, and the ExtractedTitle rows created for the session
are exactly one per record, in order. -/
theorem C2_completed_counters (provM provT : List Char → Option Int → List RemoteResult)
    (deliver : Nat → Bool) (records : List ExtractedTitleRecord) (st0 : JobState) :
    (process_import_file provM provT deliver records st0).session.status
        = SessionStatus.completed ∧
    (process_import_file provM provT deliver records st0).session.matched_count
        + (process_import_file provM provT deliver records st0).session.unmatched_count
      = (process_import_file provM provT deliver records st0).session.total_titles ∧
    (process_import_file provM provT deliver records st0).session.total_titles
      = records.length ∧
    (process_import_file provM provT deliver records st0).extractedRows
      = st0.extractedRows ++ buildRows st0.nextExtractedId st0.session.id records ∧
    (process_import_file provM provT deliver records st0).extractedRows.length
      = st0.extractedRows.length + records.length := by
  have hle := runLoop_matched_le provM provT deliver records.length records 1 0
    { st0 with session := { st0.session with status := SessionStatus.processing } }
  obtain ⟨hses, hrows⟩ := runLoop_rows_session provM provT deliver records.length records 1 0
    { st0 with session := { st0.session with status := SessionStatus.processing } }
  refine ⟨rfl, ?_, rfl, ?_, ?_⟩
  · show (runLoop provM provT deliver records.length 1 0 records _).1
        + (records.length - (runLoop provM provT deliver records.length 1 0 records _).1)
      = records.length
    omega
  · exact hrows
  · rw [show (process_import_file provM provT deliver records st0).extractedRows
        = (runLoop provM provT deliver records.length 1 0 records
            { st0 with session := { st0.session with
                status := SessionStatus.processing } }).2.extractedRows from rfl, hrows]
    rw [List.length_append, buildRows_length]

/-- Both runs of the loop with different delivery oracles agree on the
matched counter and on every state component except the event log. -/
theorem runLoop_deliver_eq (provM provT : List Char → Option Int → List RemoteResult)
    (d₁ d₂ : Nat → Bool) (total : Nat) (rs : List ExtractedTitleRecord)
    (idx matched : Nat) (st : JobState) :
    (runLoop provM provT d₁ total idx matched rs st).1
      = (runLoop provM provT d₂ total idx matched rs st).1 ∧
    (runLoop provM provT d₁ total idx matched rs st).2.catalog
      = (runLoop provM provT d₂ total idx matched rs st).2.catalog ∧
    (runLoop provM provT d₁ total idx matched rs st).2.session
      = (runLoop provM provT d₂ total idx matched rs st).2.session ∧
    (runLoop provM provT d₁ total idx matched rs st).2.extractedRows
      = (runLoop provM provT d₂ total idx matched rs st).2.extractedRows ∧
    (runLoop provM provT d₁ total idx matched rs st).2.matchRows
      = (runLoop provM provT d₂ total idx matched rs st).2.matchRows := by
  obtain ⟨h1, h2⟩ := runLoop_core_eq provM provT d₁ d₂ total rs idx matched st st rfl
  exact ⟨h1, congrArg Prod.fst h2, congrArg (fun p => p.2.1) h2,
    congrArg (fun p => p.2.2.1) h2, congrArg (fun p => p.2.2.2.1) h2⟩

/-- C8: the notification channel cannot change the outcome — two runs with
arbitrary delivery oracles produce the same session row, catalog, and
created rows; only the event log differs.  The session still reaches
`completed`. -/
theorem C8_notification_failure_harmless
    (provM provT : List Char → Option Int → List RemoteResult)
    (d₁ d₂ : Nat → Bool) (records : List ExtractedTitleRecord) (st0 : JobState) :
    (process_import_file provM provT d₁ records st0).session
        = (process_import_file provM provT d₂ records st0).session ∧
    (process_import_file provM provT d₁ records st0).catalog
        = (process_import_file provM provT d₂ records st0).catalog ∧
    (process_import_file provM provT d₁ records st0).extractedRows
        = (process_import_file provM provT d₂ records st0).extractedRows ∧
    (process_import_file provM provT d₁ records st0).matchRows
        = (process_import_file provM provT d₂ records st0).matchRows ∧
    (process_import_file provM provT d₁ records st0).session.status
        = SessionStatus.completed := by
  obtain ⟨hm, hcat, hses, hrows, hmrows⟩ := runLoop_deliver_eq provM provT d₁ d₂ records.length
    records 1 0 { st0 with session := { st0.session with status := SessionStatus.processing } }
  refine ⟨?_, hcat, hrows, hmrows, rfl⟩
  simp only [process_import_file]
  rw [hm, hses]

/-! The TMDB cache-aside client of `tmdb_client.py`.  The cache key is
modelled by its components (search kind, lowercased stripped title,
`year or "*"` with a truthy-year normalisation); the network is an oracle
giving the response the provider would return (`none` models a non-2xx
response), and issued network calls are logged. -/

/-- Cache key of `_cache_key`: kind, lowercased title, year-or-wildcard
(`none` stands for the `*` wildcard; `year or "*"` makes 0 a wildcard). -/
structure CacheKey where
  kind : List Char
  titleKey : List Char
  yearKey : Option Int
deriving DecidableEq

/-- Build the cache key from the stripped title and the optional year. -/
def mkCacheKey (kind : List Char) (title : List Char) (year : Option Int) : CacheKey :=
  ⟨kind, title.map Char.toLower, if truthyI year then year else none⟩

/-- Client configuration: whether an API key and a Redis handle exist. -/
structure TmdbConfig where
  apiKey : Bool
  redis : Bool
deriving DecidableEq

/-- Client state: the cache (an association list, newest entry first) and
the log of issued network requests. -/
structure TmdbState where
  cache : List (CacheKey × List RemoteResult)
  networkCalls : List CacheKey
deriving DecidableEq

/-- Cache lookup (`_redis.get`). -/
def lookupCache (cache : List (CacheKey × List RemoteResult)) (k : CacheKey) :
    Option (List RemoteResult) :=
  match cache.find? (fun e => e.1 = k) with
  | some e => some e.2
  | none => none

/-- `_search_tmdb`: no API key or a blank title short-circuits to an empty
list; a cache hit returns the stored list untouched; otherwise the network
is called (after the non-blocking rate limiter), a non-success response
yields `[]`, and a success is cached for the TTL and returned. -/
def search_tmdb (cfg : TmdbConfig) (kind : List Char) (title : List Char) (year : Option Int)
    (resp : Option (List RemoteResult)) (st : TmdbState) : List RemoteResult × TmdbState :=
  if cfg.apiKey = false then ([], st)
  else
    let t := pyStrip title
    if t = [] then ([], st)
    else
      let key := mkCacheKey kind t year
      match (if cfg.redis then lookupCache st.cache key else none) with
      | some cached => (cached, st)
      | none =>
        let st1 : TmdbState := { st with networkCalls := st.networkCalls ++ [key] }
        match resp with
        | none => ([], st1)
        | some results =>
          let st2 : TmdbState :=
            if cfg.redis then { st1 with cache := (key, results) :: st1.cache } else st1
          (results, st2)

/-- C7: with an API key and Redis configured, a first query that misses
the cache and receives a successful response stores its result list; a
second query with the same kind, same lowercased stripped title, and same
year-or-wildcard then returns that stored list and issues no further
network call (the state is unchanged). -/
theorem C7_cache_hit_no_network (cfg : TmdbConfig) (kind : List Char)
    (t₁ t₂ : List Char) (y₁ y₂ : Option Int) (L : List RemoteResult)
    (resp₂ : Option (List RemoteResult)) (st₀ : TmdbState)
    (hapi : cfg.apiKey = true) (hredis : cfg.redis = true)
    (ht₁ : pyStrip t₁ ≠ []) (ht₂ : pyStrip t₂ ≠ [])
    (hkey : mkCacheKey kind (pyStrip t₂) y₂ = mkCacheKey kind (pyStrip t₁) y₁)
    (hmiss : lookupCache st₀.cache (mkCacheKey kind (pyStrip t₁) y₁) = none) :
    (search_tmdb cfg kind t₁ y₁ (some L) st₀).1 = L ∧
    (search_tmdb cfg kind t₂ y₂ resp₂ (search_tmdb cfg kind t₁ y₁ (some L) st₀).2)
      = (L, (search_tmdb cfg kind t₁ y₁ (some L) st₀).2) := by
  have h1 : search_tmdb cfg kind t₁ y₁ (some L) st₀
      = (L, ⟨(mkCacheKey kind (pyStrip t₁) y₁, L) :: st₀.cache,
          st₀.networkCalls ++ [mkCacheKey kind (pyStrip t₁) y₁]⟩) := by
    simp only [search_tmdb]
    rw [if_neg (by rw [hapi]; simp), if_neg ht₁, if_pos hredis, hmiss]
    simp [hredis]
  have hfind : lookupCache ((mkCacheKey kind (pyStrip t₁) y₁, L) :: st₀.cache)
      (mkCacheKey kind (pyStrip t₂) y₂) = some L := by
    simp [lookupCache, List.find?_cons, hkey]
  refine ⟨by rw [h1], ?_⟩
  rw [h1]
  show search_tmdb cfg kind t₂ y₂ resp₂
      ⟨(mkCacheKey kind (pyStrip t₁) y₁, L) :: st₀.cache,
        st₀.networkCalls ++ [mkCacheKey kind (pyStrip t₁) y₁]⟩
    = (L, ⟨(mkCacheKey kind (pyStrip t₁) y₁, L) :: st₀.cache,
        st₀.networkCalls ++ [mkCacheKey kind (pyStrip t₁) y₁]⟩)
  simp only [search_tmdb]
  rw [if_neg (by rw [hapi]; simp), if_neg ht₂, if_pos hredis, hfind]

/-- Witness state for C7: an empty cache; the second query uses a
different casing and a zero year, which normalise to the same key as the
first query's no-year form. -/
def c7state : TmdbState := ⟨[], []⟩

/-- Witness result list for C7. -/
def c7res : List RemoteResult :=
  [⟨some 3, some ['D'], none, none, none, none, none, none, false⟩]

theorem C7_cache_hit_no_network_witness :
    (search_tmdb ⟨true, true⟩ ['m'] ['D', 'u', 'N', 'E'] (some 0) none
        (search_tmdb ⟨true, true⟩ ['m'] ['d', 'u', 'n', 'e'] none (some c7res) c7state).2)
      = (c7res, (search_tmdb ⟨true, true⟩ ['m'] ['d', 'u', 'n', 'e'] none
          (some c7res) c7state).2) :=
  (C7_cache_hit_no_network ⟨true, true⟩ ['m'] ['d', 'u', 'n', 'e'] ['D', 'u', 'N', 'E']
    none (some 0) c7res none c7state rfl rfl (by decide) (by decide) (by decide) rfl).2

/-! The confirmation endpoint `confirm_matches` of `importer/routes.py`.
Ids arriving in the JSON body are modelled as optional integers (Python
truthiness: absent and 0 are falsy); the relevant table rows are given as
lists. -/

/-- The literal reason string `missing fields`. -/
def reasonMissingFields : List Char :=
  ['m', 'i', 's', 's', 'i', 'n', 'g', ' ', 'f', 'i', 'e', 'l', 'd', 's']

/-- The literal reason string `mismatched ids`. -/
def reasonMismatchedIds : List Char :=
  ['m', 'i', 's', 'm', 'a', 't', 'c', 'h', 'e', 'd', ' ', 'i', 'd', 's']

/-- The literal reason string `invalid listType`. -/
def reasonInvalidListType : List Char :=
  ['i', 'n', 'v', 'a', 'l', 'i', 'd', ' ', 'l', 'i', 's', 't', 'T', 'y', 'p', 'e']

/-- The normalized list type `watchlist`. -/
def ltWatchlist : List Char := ['w', 'a', 't', 'c', 'h', 'l', 'i', 's', 't']

/-- The normalized list type `currently_watching`. -/
def ltCurrentlyWatching : List Char :=
  ['c', 'u', 'r', 'r', 'e', 'n', 't', 'l', 'y', '_', 'w', 'a', 't', 'c', 'h', 'i', 'n', 'g']

/-- The normalized list type `watched`. -/
def ltWatched : List Char := ['w', 'a', 't', 'c', 'h', 'e', 'd']

/-- The accepted normalized list types. -/
def allowedListTypes : List (List Char) := [ltWatchlist, ltCurrentlyWatching, ltWatched]

/-- `list_type.lower().replace("-", "_")`. -/
def normListType (lt : List Char) : List Char :=
  (lt.map Char.toLower).map fun c => if c = '-' then '_' else c

/-- A `title_matches` row as the confirmation endpoint reads it. -/
structure MatchRow where
  id : Nat
  extracted_title_id : Nat
  media_type : MediaType
  tmdb_id : Option Nat
  local_id : Option Nat
deriving DecidableEq

/-- The two tables the endpoint queries by primary key. -/
structure ConfirmDb where
  extractedTitles : List ExtractedTitle
  titleMatches : List MatchRow
deriving DecidableEq

/-- One choice of the request body. -/
structure Choice where
  extractedTitleId : Option Int
  matchId : Option Int
  listType : Option (List Char)
deriving DecidableEq

/-- One echoed validated choice. -/
structure ValidatedChoice where
  extractedTitleId : Nat
  matchId : Nat
  listType : List Char
  media_type : MediaType
  tmdb_id : Option Nat
  local_id : Option Nat
deriving DecidableEq

/-- Classification of one choice. -/
inductive ChoiceOutcome where
  | valid : ValidatedChoice → ChoiceOutcome
  | invalid : List Char → ChoiceOutcome
deriving DecidableEq

/-- The part of the choice check past the two successful lookups: the
belongs-together check, then list-type normalisation and membership. -/
def classifyFound (sessionId : Nat) (lt : List Char) (ext : ExtractedTitle)
    (mr : MatchRow) : ChoiceOutcome :=
  if (ext.import_id = sessionId) && (mr.extracted_title_id = ext.id) then
    if normListType lt = ltWatchlist || normListType lt = ltCurrentlyWatching
        || normListType lt = ltWatched then
      .valid ⟨ext.id, mr.id, normListType lt, mr.media_type, mr.tmdb_id, mr.local_id⟩
    else .invalid reasonInvalidListType
  else .invalid reasonMismatchedIds

/-- The per-choice body of the `confirm_matches` loop: missing-field
check (Python truthiness), primary-key lookups, then `classifyFound`. -/
def classifyChoice (db : ConfirmDb) (sessionId : Nat) (c : Choice) : ChoiceOutcome :=
  let lt := pyStrip (c.listType.getD [])
  if truthyI c.extractedTitleId = false || truthyI c.matchId = false || lt = [] then
    .invalid reasonMissingFields
  else
    match db.extractedTitles.find? (fun e => (e.id : Int) = c.extractedTitleId.getD 0),
        db.titleMatches.find? (fun m => (m.id : Int) = c.matchId.getD 0) with
    | some ext, some mr => classifyFound sessionId lt ext mr
    | _, _ => .invalid reasonMismatchedIds

/-- The whole loop of `confirm_matches`: partition the choices into the
echoed `validated` and `invalid` lists, in order. -/
def confirm_matches (db : ConfirmDb) (sessionId : Nat) :
    List Choice → List ValidatedChoice × List (Choice × List Char)
  | [] => ([], [])
  | c :: rest =>
    match classifyChoice db sessionId c with
    | .valid v => (v :: (confirm_matches db sessionId rest).1, (confirm_matches db sessionId rest).2)
    | .invalid reason =>
      ((confirm_matches db sessionId rest).1, (c, reason) :: (confirm_matches db sessionId rest).2)

/-- Counterexample data for C9: two extracted titles of session 1 and a
match that belongs to the second. -/
def c9db : ConfirmDb :=
  ⟨[⟨1, 1, ['a'], none, none⟩, ⟨2, 1, ['b'], none, none⟩],
    [⟨10, 2, .movie, some 5, some 1⟩]⟩

/-- Counterexample choice for C9: names extracted title 1 and match 10
(which belongs to extracted title 2), but carries an empty list type. -/
def c9choice : Choice := ⟨some 1, some 10, some []⟩

/-- Counterexample to C9 as stated: the choice's match id refers to a
TitleMatch of a different ExtractedTitle than the one named, yet because
its list type is empty the missing-field check fires first and the choice
is classified `missing fields`, not `mismatched ids`. -/
theorem C9_counterexample :
    (c9db.titleMatches.find? (fun m => (m.id : Int) = c9choice.matchId.getD 0)).map
        MatchRow.extracted_title_id = some 2 ∧
    (c9db.extractedTitles.find? (fun e =>
        (e.id : Int) = c9choice.extractedTitleId.getD 0)).map ExtractedTitle.id = some 1 ∧
    confirm_matches c9db 1 [c9choice] = ([], [(c9choice, reasonMissingFields)]) := by
  decide

/-- C9, amended: provided a choice carries a truthy extracted-title id, a
truthy match id and a non-blank list type (otherwise it is classified
`missing fields`), a choice whose match row belongs to a different
extracted title than the one named, or whose extracted title belongs to a
different session, is classified `mismatched ids`; a choice is validated
only if its list type, lowercased with hyphens replaced by underscores, is
one of watchlist/currently_watching/watched; the validated list contains
exactly the choices classified valid, in order, and every invalid choice
is echoed with its reason. -/
theorem C9_confirm_amended (db : ConfirmDb) (sid : Nat) (choices : List Choice) :
    (∀ c : Choice, truthyI c.extractedTitleId = true → truthyI c.matchId = true →
      pyStrip (c.listType.getD []) ≠ [] →
      ∀ ext mr,
        db.extractedTitles.find? (fun e => (e.id : Int) = c.extractedTitleId.getD 0) = some ext →
        db.titleMatches.find? (fun m => (m.id : Int) = c.matchId.getD 0) = some mr →
        (mr.extracted_title_id ≠ ext.id ∨ ext.import_id ≠ sid) →
        classifyChoice db sid c = .invalid reasonMismatchedIds) ∧
    (∀ c v, classifyChoice db sid c = .valid v →
      v.listType ∈ allowedListTypes ∧
      v.listType = normListType (pyStrip (c.listType.getD []))) ∧
    ((confirm_matches db sid choices).1
      = choices.filterMap (fun c =>
          match classifyChoice db sid c with
          | .valid v => some v
          | .invalid _ => none)) ∧
    (∀ c ∈ choices, ∀ reason, classifyChoice db sid c = .invalid reason →
      (c, reason) ∈ (confirm_matches db sid choices).2) := by
  have hfound : ∀ lt ext mr v, classifyFound sid lt ext mr = .valid v →
      v.listType ∈ allowedListTypes ∧ v.listType = normListType lt := by
    intro lt ext mr v h
    unfold classifyFound at h
    by_cases h2 : ((ext.import_id = sid) && (mr.extracted_title_id = ext.id)) = true
    · rw [if_pos h2] at h
      by_cases h3 : (normListType lt = ltWatchlist || normListType lt = ltCurrentlyWatching
          || normListType lt = ltWatched) = true
      · rw [if_pos h3] at h
        cases h
        simp only [Bool.or_eq_true, decide_eq_true_eq] at h3
        refine ⟨?_, rfl⟩
        rcases h3 with (h3 | h3) | h3 <;> simp [allowedListTypes, h3]
      · rw [if_neg h3] at h; cases h
    · rw [if_neg h2] at h; cases h
  refine ⟨?_, ?_, ?_, ?_⟩
  · intro c h1 h2 h3 ext mr hext hmr hbad
    unfold classifyChoice
    rw [if_neg (by simp [h1, h2, h3])]
    rw [hext, hmr]
    show classifyFound sid (pyStrip (c.listType.getD [])) ext mr
      = ChoiceOutcome.invalid reasonMismatchedIds
    unfold classifyFound
    rw [if_neg ?_]
    simp only [Bool.and_eq_true, decide_eq_true_eq]
    rintro ⟨g1, g2⟩
    rcases hbad with hb | hb
    · exact hb g2
    · exact hb g1
  · intro c v h
    unfold classifyChoice at h
    by_cases h1 : (truthyI c.extractedTitleId = false || truthyI c.matchId = false
        || pyStrip (c.listType.getD []) = []) = true
    · rw [if_pos h1] at h; cases h
    · rw [if_neg h1] at h
      cases hext : db.extractedTitles.find?
          (fun e => (e.id : Int) = c.extractedTitleId.getD 0) with
      | none => rw [hext] at h; cases h
      | some ext =>
        cases hmr : db.titleMatches.find? (fun m => (m.id : Int) = c.matchId.getD 0) with
        | none => rw [hext, hmr] at h; cases h
        | some mr =>
          rw [hext, hmr] at h
          exact hfound (pyStrip (c.listType.getD [])) ext mr v h
  · induction choices with
    | nil => rfl
    | cons c rest ih =>
      unfold confirm_matches
      cases hc : classifyChoice db sid c with
      | valid v => simp [List.filterMap_cons, hc, ih]
      | invalid reason => simp [List.filterMap_cons, hc, ih]
  · induction choices with
    | nil => intro c hc; simp at hc
    | cons c0 rest ih =>
      intro c hc reason hr
      unfold confirm_matches
      rcases List.mem_cons.mp hc with h1 | h1
      · subst h1
        rw [hr]
        exact List.mem_cons_self _ _
      · cases hc0 : classifyChoice db sid c0 with
        | valid v => exact ih c h1 reason hr
        | invalid reason0 => exact List.mem_cons_of_mem _ (ih c h1 reason hr)

/-- Witness tables for the amended C9. -/
def c9wdb : ConfirmDb :=
  ⟨[⟨1, 1, ['a'], none, none⟩], [⟨10, 1, .movie, some 5, some 1⟩]⟩

/-- Witness choice for the amended C9: valid, with a hyphenated mixed-case
list type. -/
def c9wchoice : Choice :=
  ⟨some 1, some 10, some ['W', 'a', 't', 'c', 'h', 'l', 'i', 's', 't']⟩

theorem C9_confirm_amended_witness :
    (confirm_matches c9wdb 1 [c9wchoice, c9choice]).1
      = [⟨1, 10, ltWatchlist, .movie, some 5, some 1⟩] :=
  ((C9_confirm_amended c9wdb 1 [c9wchoice, c9choice]).2.2.1).trans (by decide)

end ShowBuff
